import Mathlib

/-!
Verification development for the gcpidentitytokenportal repository.

Go strings are modelled as lists of characters (`Str`), Go byte slices of
textual data likewise.  Pure Go helpers (string splitting, suffix rewrite,
error classification, sanitization) are translated directly into Lean
functions; the effectful token-acquisition pipeline is modelled by passing
an explicit `World` of external outcomes (file reads, HTTP responses) and
collecting the outbound requests as an event trace.
-/

set_option maxHeartbeats 1000000
set_option maxRecDepth 10000

/-- Go strings modelled as lists of characters. -/
abbrev Str := List Char

/-- Conversion of a Lean string literal to the list-of-characters model. -/
def str (s : String) : Str := s.data

/- ### Generic string helpers mirroring Go's strings package -/

/-- Whether the first list is a prefix of the second
(Go: strings.HasPrefix, used inside strings.Split / strings.Contains). -/
def leadsWith : Str → Str → Bool
  | [], _ => true
  | _ :: _, [] => false
  | a :: as, b :: bs => a == b && leadsWith as bs

/-- First (leftmost) occurrence of `sep` inside a list: returns the text
before the occurrence and the text after it, or `none` when `sep` does not
occur.  Helper for the model of Go's strings.Split. -/
def findSep (sep : Str) : Str → Option (Str × Str)
  | [] => none
  | c :: rest =>
    if leadsWith sep (c :: rest) then some ([], (c :: rest).drop sep.length)
    else
      match findSep sep rest with
      | none => none
      | some (pre, post) => some (c :: pre, post)

/-- Fuel-indexed worker for `splitOn`; the fuel only serves termination and
is always supplied large enough to be irrelevant. -/
def splitOnF (sep : Str) : Nat → Str → List Str
  | 0, s => [s]
  | fuel + 1, s =>
    match findSep sep s with
    | none => [s]
    | some (pre, post) => pre :: splitOnF sep fuel post

/-- Go's strings.Split: splits around each leftmost non-overlapping
occurrence of `sep` (only ever used with non-empty separators here). -/
def splitOn (sep : Str) (s : Str) : List Str := splitOnF sep (s.length + 1) s

/-- Go's strings.Contains: whether `sub` occurs inside `s`. -/
def containsSub (sub : Str) : Str → Bool
  | [] => leadsWith sub []
  | c :: rest => leadsWith sub (c :: rest) || containsSub sub rest

/-- Go's strings.ToLower restricted to the ASCII range exercised by the
source (error-message pattern matching). -/
def toLowerStr (s : Str) : Str := s.map Char.toLower

/-- Go's strings.HasSuffix: len(s) >= len(suffix) && s[len(s)-len(suffix):] == suffix. -/
def trailsWith (s suffix : Str) : Bool :=
  decide (suffix.length ≤ s.length) && (s.drop (s.length - suffix.length) == suffix)

/- ### internal/errors/errors.go -/

/-- Closed error taxonomy (internal/errors/errors.go lines 13-42). -/
inductive ErrorCategory where
  | ConfigMissing
  | ConfigParseError
  | TokenFileReadError
  | STSHTTPError
  | STSNon200
  | STSResponseDecodeError
  | STSEmptyAccessToken
  | IAMHTTPError
  | IAMNon200
  | IAMResponseDecodeError
  | IAMEmptyToken
  | AudienceInvalid
  | NetworkDNSError
  | NetworkTimeout
  | InternalError
deriving DecidableEq, Repr

/-- A Go `error` value as seen by CategorizeNetworkError: whether
errors.As finds a *net.DNSError in its chain, whether errors.As finds a
net.Error whose Timeout() reports true, and the text of Error(). -/
structure GoError where
  isDNSError : Bool
  isTimeout : Bool
  msg : Str
deriving DecidableEq, Repr

/-- CategorizedError (internal/errors/errors.go lines 45-51); the wrapped
underlying error is kept as its message text. -/
structure CategorizedError where
  category : ErrorCategory
  message : Str
  statusCode : Nat
  operation : Str
  cause : Option Str
deriving DecidableEq, Repr

/-- internal/errors/errors.go New: category and message set, the rest zero. -/
def CategorizedError.mk' (category : ErrorCategory) (message : Str)
    (cause : Option Str) : CategorizedError :=
  { category := category, message := message, statusCode := 0,
    operation := [], cause := cause }

/-- internal/errors/errors.go WithOperation. -/
def CategorizedError.withOperation (e : CategorizedError) (op : Str) : CategorizedError :=
  { e with operation := op }

/-- internal/errors/errors.go WithStatusCode. -/
def CategorizedError.withStatusCode (e : CategorizedError) (code : Nat) : CategorizedError :=
  { e with statusCode := code }

/-- CategorizeNetworkError (internal/errors/errors.go lines 86-113); the
input is `none` for a nil error. -/
def CategorizeNetworkError : Option GoError → ErrorCategory
  | none => ErrorCategory.InternalError
  | some e =>
    if e.isDNSError then ErrorCategory.NetworkDNSError
    else if e.isTimeout then ErrorCategory.NetworkTimeout
    else
      let errStr := toLowerStr e.msg
      if containsSub (str "dial") errStr || containsSub (str "dns") errStr
          || containsSub (str "lookup") errStr then ErrorCategory.NetworkDNSError
      else if containsSub (str "timeout") errStr || containsSub (str "deadline") errStr then
        ErrorCategory.NetworkTimeout
      else ErrorCategory.InternalError

/- ### internal/config/config.go -/

/-- GoogleApplicationCredentials (internal/config/config.go lines 10-23);
only the fields the verified code paths read are carried. -/
structure GoogleApplicationCredentials where
  Audience : Str
  SubjectTokenFile : Str
  ServiceAccountImpersonationURL : Str
deriving DecidableEq, Repr

/-- UsesImpersonation (internal/config/config.go lines 25-27). -/
def GoogleApplicationCredentials.UsesImpersonation
    (g : GoogleApplicationCredentials) : Bool :=
  g.ServiceAccountImpersonationURL != []

/-- GetImpersonationEmail (internal/config/config.go lines 29-40):
split the URL at "serviceAccounts/" and take the part before the colon. -/
def GoogleApplicationCredentials.GetImpersonationEmail
    (g : GoogleApplicationCredentials) : Str :=
  if g.ServiceAccountImpersonationURL = [] then []
  else
    let parts := splitOn (str "serviceAccounts/") g.ServiceAccountImpersonationURL
    if parts.length < 2 then []
    else ((splitOn (str ":") (parts.getD 1 [])).headD [])

/- ### internal/sanitizer/sanitizer.go -/

/-- ASCII word character in the sense of Go regexp's word boundary assertion. -/
def isWordChar (c : Char) : Bool := c.isAlphanum || c == '_'

/-- Character class [A-Za-z0-9_-] of the JWT pattern (sanitizer.go line 21). -/
def isClassChar (c : Char) : Bool := c.isAlphanum || c == '_' || c == '-'

/-- Word-boundary test between the previous character (none at the start of
the string) and the current character. -/
def atBoundary : Option Char → Char → Bool
  | none, c => isWordChar c
  | some p, c => isWordChar p != isWordChar c

/-- RedactedValue (sanitizer.go line 24). -/
def RedactedValue : Str := str "[REDACTED]"

/-- RedactedJWT (sanitizer.go line 27). -/
def RedactedJWT : Str := str "[REDACTED_JWT]"

/-- Backtracking step of the final greedy repetition: drop the maximal run
of trailing non-word characters, so that the closing word boundary can hold
after the last kept character. -/
def dropTrailingNonWord (r : Str) : Str :=
  (r.reverse.dropWhile (fun d => !(isWordChar d))).reverse

/-- Attempt to match the compiled jwtPattern
(backslash-b [A-Za-z0-9_-]{20,} dot [A-Za-z0-9_-]{20,} dot [A-Za-z0-9_-]{20,} backslash-b)
at the head of `l`, with `prev` the character just before `l` in the full
text.  Because the dot separator is not in the character class, each of the
first two repetitions matches exactly the maximal run of class characters;
the final repetition is maximal-greedy but backtracks over trailing
non-word characters until the closing word boundary holds.  Returns the
number of characters consumed and the last consumed character. -/
def matchAt (prev : Option Char) (l : Str) : Option (Nat × Char) :=
  match l with
  | [] => none
  | c :: _ =>
    if atBoundary prev c then
      if 20 ≤ (l.takeWhile isClassChar).length then
        match l.dropWhile isClassChar with
        | d1 :: l2 =>
          if d1 = '.' then
            if 20 ≤ (l2.takeWhile isClassChar).length then
              match l2.dropWhile isClassChar with
              | d2 :: l3 =>
                if d2 = '.' then
                  if 20 ≤ (dropTrailingNonWord (l3.takeWhile isClassChar)).length then
                    some ((l.takeWhile isClassChar).length + 1 +
                        (l2.takeWhile isClassChar).length + 1 +
                        (dropTrailingNonWord (l3.takeWhile isClassChar)).length,
                      (dropTrailingNonWord (l3.takeWhile isClassChar)).getLastD ' ')
                  else none
                else none
              | [] => none
            else none
          else none
        | [] => none
      else none
    else none

/-- Fuel-indexed left-to-right scan performing the non-overlapping
leftmost-match replacement of Go's regexp ReplaceAllString; fuel is always
supplied at least the length of the text. -/
def scanF : Nat → Option Char → Str → Str
  | 0, _, s => s
  | _ + 1, _, [] => []
  | fuel + 1, prev, c :: rest =>
    match matchAt prev (c :: rest) with
    | none => c :: scanF fuel (some c) rest
    | some (n, lc) => RedactedJWT ++ scanF fuel (some lc) ((c :: rest).drop n)

/-- SanitizeString (sanitizer.go lines 96-99): replace every match of
jwtPattern with RedactedJWT. -/
def SanitizeString (s : Str) : Str := scanF s.length none s

/-- sensitiveFields (sanitizer.go lines 11-18). -/
def sensitiveFields : List Str :=
  [str "access_token", str "id_token", str "token", str "subject_token",
   str "authorization", str "Authorization"]

/-- isSensitiveField (sanitizer.go lines 101-110). -/
def isSensitiveField (field : Str) : Bool :=
  sensitiveFields.any (fun sensitive => toLowerStr sensitive == toLowerStr field)

/-- A decoded JSON document, the image of Go's encoding/json unmarshalling
into interface values; numbers are carried as integers, which covers every
numeric value the verified code paths inspect. -/
inductive Json where
  | null
  | bool (b : Bool)
  | num (n : Int)
  | str (s : Str)
  | arr (elems : List Json)
  | obj (fields : List (Str × Json))

mutual

/-- sanitizeMap (sanitizer.go lines 52-74). -/
def sanitizeMap : List (Str × Json) → List (Str × Json)
  | [] => []
  | (k, v) :: rest =>
    if isSensitiveField k then (k, Json.str RedactedValue) :: sanitizeMap rest
    else (k, sanitizeEntry v) :: sanitizeMap rest

/-- The value-type switch shared by sanitizeMap and sanitizeSlice
(sanitizer.go lines 61-70 and 81-90). -/
def sanitizeEntry : Json → Json
  | Json.obj m => Json.obj (sanitizeMap m)
  | Json.arr xs => Json.arr (sanitizeSlice xs)
  | Json.str s => Json.str (SanitizeString s)
  | v => v

/-- sanitizeSlice (sanitizer.go lines 77-94). -/
def sanitizeSlice : List Json → List Json
  | [] => []
  | v :: rest => sanitizeEntry v :: sanitizeSlice rest

end

/-- Result of SanitizeJSON: either plain sanitized text (the non-JSON
fallback path) or the sanitized object to be marshalled back to bytes. -/
inductive SanOut where
  | text (s : Str)
  | json (j : Json)

/-- SanitizeJSON (sanitizer.go lines 31-49).  The byte input is carried
together with its parse outcome `parsed` (`none` when the bytes are not
valid JSON).  Go unmarshals into a map of interface values, which succeeds
exactly when the top level is a JSON object; the final re-marshal of the
sanitized map cannot fail and is modelled by returning the Json value. -/
def SanitizeJSON (data : Str) (parsed : Option Json) : SanOut :=
  if data = [] then SanOut.text []
  else
    match parsed with
    | some (Json.obj m) => SanOut.json (Json.obj (sanitizeMap m))
    | _ => SanOut.text (SanitizeString data)

/-- Exact-key field lookup in a decoded JSON object (the duplicate-key and
case-insensitive fallbacks of encoding/json are not exercised by the
verified claims and are not modelled). -/
def lookupField (key : Str) : List (Str × Json) → Option Json
  | [] => none
  | (k, v) :: rest => if k = key then some v else lookupField key rest

/-- Go unmarshalling of a JSON value into an int field: missing and null
leave the zero value, a number is taken, any other shape is a type error. -/
def decodeInt : Option Json → Option Int
  | none => some 0
  | some Json.null => some 0
  | some (Json.num n) => some n
  | some _ => none

/-- Go unmarshalling of a JSON value into a string field. -/
def decodeStr : Option Json → Option Str
  | none => some []
  | some Json.null => some []
  | some (Json.str s) => some s
  | some _ => none

/-- Go unmarshalling into the nested shape
struct { Error struct { Code int; Status, Message string } } used first by
ExtractGoogleError (sanitizer.go lines 119-127). -/
def decodeNestedError : Json → Option (Int × Str × Str)
  | Json.obj fields =>
    match lookupField (str "error") fields with
    | none => some (0, [], [])
    | some Json.null => some (0, [], [])
    | some (Json.obj efields) =>
      match decodeInt (lookupField (str "code") efields),
            decodeStr (lookupField (str "status") efields),
            decodeStr (lookupField (str "message") efields) with
      | some code, some status, some message => some (code, status, message)
      | _, _, _ => none
    | some _ => none
  | _ => none

/-- Go unmarshalling into the flat shape
struct { ErrorCode string "error"; ErrorDesc string "error_description" }
tried second by ExtractGoogleError (sanitizer.go lines 129-133). -/
def decodeFlatError : Json → Option (Str × Str)
  | Json.obj fields =>
    match decodeStr (lookupField (str "error") fields),
          decodeStr (lookupField (str "error_description") fields) with
    | some ec, some ed => some (ec, ed)
    | _, _ => none
  | _ => none

/-- ExtractGoogleError (sanitizer.go lines 114-140); as with SanitizeJSON
the raw bytes travel with their parse outcome. -/
def ExtractGoogleError (body : Str) (parsed : Option Json) : Int × Str × Str :=
  if body = [] then (0, [], [])
  else
    match parsed.bind decodeNestedError with
    | some (code, status, message) => (code, status, SanitizeString message)
    | none =>
      match parsed.bind decodeFlatError with
      | some (ec, ed) => (0, ec, SanitizeString ed)
      | none => (0, [], SanitizeString body)

/- ### internal/token (src/unnamed/part_002 lines 336-636) -/

/-- OAuth grant type constant (part_002 line 360). -/
def grantType : Str := str "urn:ietf:params:oauth:grant-type:token-exchange"

/-- OAuth scope constant (part_002 line 361). -/
def scope : Str := str "https://www.googleapis.com/auth/cloud-platform"

/-- Requested token type constant (part_002 line 362). -/
def requestedTokenType : Str := str "urn:ietf:params:oauth:token-type:access_token"

/-- Subject token type constant (part_002 line 363). -/
def subjectTokenType : Str := str "urn:ietf:params:oauth:token-type:jwt"

/-- STSRequest (part_002 lines 367-374). -/
structure STSRequest where
  GrantType : Str
  Audience : Str
  Scope : Str
  RequestedTokenType : Str
  SubjectTokenType : Str
  SubjectToken : Str
deriving DecidableEq, Repr

/-- STSResponse (part_002 lines 377-381). -/
structure STSResponse where
  AccessToken : Str
  ExpiresIn : Nat
  TokenType : Str
deriving DecidableEq, Repr

/-- IAMRequest (part_002 lines 384-387). -/
structure IAMRequest where
  Audience : Str
  IncludeEmail : Bool
deriving DecidableEq, Repr

/-- IAMResponse (part_002 lines 390-392). -/
structure IAMResponse where
  Token : Str
deriving DecidableEq, Repr

/-- Outcome of an HTTP round trip: transport failure, or a response with a
status code, raw body bytes, and the result of JSON-decoding the body into
the expected response type (`none` when decoding fails). -/
inductive HttpOutcome (α : Type) where
  | netFail (e : GoError)
  | resp (statusCode : Nat) (rawBody : Str) (decoded : Option α)

/-- The external world an acquisition runs against: the subject-token file
read, and the two HTTP endpoints as functions of the outbound request. -/
structure World where
  readFile : Except GoError Str
  stsPost : STSRequest → HttpOutcome STSResponse
  iamSend : Str → IAMRequest → Str → HttpOutcome IAMResponse

/-- Outbound network requests recorded during an acquisition. -/
inductive Event where
  | stsCall (r : STSRequest)
  | iamCall (url : Str) (r : IAMRequest) (bearer : Str)
deriving DecidableEq, Repr

/-- exchangeToken (part_002 lines 428-524).  The json.Marshal of a struct
of strings cannot fail, so that unreachable error branch is omitted; log
emission carries no data flow and is omitted. -/
def exchangeToken (w : World) (config : GoogleApplicationCredentials)
    (subjectToken : Str) : Except CategorizedError Str × List Event :=
  let operation := str "sts_exchange"
  let audience := config.Audience
  let requestPayload : STSRequest :=
    { GrantType := grantType, Audience := audience, Scope := scope,
      RequestedTokenType := requestedTokenType,
      SubjectTokenType := subjectTokenType, SubjectToken := subjectToken }
  let evs := [Event.stsCall requestPayload]
  match w.stsPost requestPayload with
  | HttpOutcome.netFail e =>
    let category := CategorizeNetworkError (some e)
    let category :=
      if category = ErrorCategory.InternalError then ErrorCategory.STSHTTPError
      else category
    (Except.error ((CategorizedError.mk' category (str "failed to call STS")
      (some e.msg)).withOperation operation), evs)
  | HttpOutcome.resp statusCode _rawBody decoded =>
    if statusCode ≠ 200 then
      (Except.error (((CategorizedError.mk' ErrorCategory.STSNon200
        (str "STS returned non-OK status") none).withOperation
          operation).withStatusCode statusCode), evs)
    else
      match decoded with
      | none =>
        (Except.error ((CategorizedError.mk' ErrorCategory.STSResponseDecodeError
          (str "failed to decode STS response") none).withOperation operation), evs)
      | some stsResp =>
        if stsResp.AccessToken = [] then
          (Except.error ((CategorizedError.mk' ErrorCategory.STSEmptyAccessToken
            (str "empty access token received from STS") none).withOperation
              operation), evs)
        else (Except.ok stsResp.AccessToken, evs)

/-- The impersonation-URL suffix rewrite inlined in generateIdentityToken
(part_002 lines 533-536): iamCredentialsURL[:len(iamCredentialsURL)-20] is
url.take (url.length - 20), and 20 is the length of ":generateAccessToken". -/
def rewriteIamURL (url : Str) : Str :=
  if trailsWith url (str ":generateAccessToken") then
    url.take (url.length - 20) ++ str ":generateIdToken"
  else url

/-- generateIdentityToken (part_002 lines 527-636); the Authorization
bearer header is the third argument of the iamSend endpoint. -/
def generateIdentityToken (w : World) (config : GoogleApplicationCredentials)
    (accessToken audience : Str) : Except CategorizedError Str × List Event :=
  let operation := str "generate_id_token"
  let iamCredentialsURL := rewriteIamURL config.ServiceAccountImpersonationURL
  let requestPayload : IAMRequest := { Audience := audience, IncludeEmail := true }
  let evs := [Event.iamCall iamCredentialsURL requestPayload accessToken]
  match w.iamSend iamCredentialsURL requestPayload accessToken with
  | HttpOutcome.netFail e =>
    let category := CategorizeNetworkError (some e)
    let category :=
      if category = ErrorCategory.InternalError then ErrorCategory.IAMHTTPError
      else category
    (Except.error ((CategorizedError.mk' category (str "failed to call IAM")
      (some e.msg)).withOperation operation), evs)
  | HttpOutcome.resp statusCode _rawBody decoded =>
    if statusCode ≠ 200 then
      (Except.error (((CategorizedError.mk' ErrorCategory.IAMNon200
        (str "IAM returned non-OK status") none).withOperation
          operation).withStatusCode statusCode), evs)
    else
      match decoded with
      | none =>
        (Except.error ((CategorizedError.mk' ErrorCategory.IAMResponseDecodeError
          (str "failed to decode IAM response") none).withOperation operation), evs)
      | some iamResp =>
        if iamResp.Token = [] then
          (Except.error ((CategorizedError.mk' ErrorCategory.IAMEmptyToken
            (str "empty identity token received from IAM") none).withOperation
              operation), evs)
        else (Except.ok iamResp.Token, evs)

/-- GetIdentityToken (part_002 lines 395-425): read the subject-token file,
exchange it at STS, then generate the identity token at IAM, short-circuiting
on the first failure and returning step errors unchanged. -/
def GetIdentityToken (w : World) (config : GoogleApplicationCredentials)
    (audience : Str) : Except CategorizedError Str × List Event :=
  match w.readFile with
  | Except.error e =>
    (Except.error (CategorizedError.mk' ErrorCategory.TokenFileReadError
      (str "failed to read Kubernetes token file") (some e.msg)), [])
  | Except.ok jwt =>
    match exchangeToken w config jwt with
    | (Except.error e, evs1) => (Except.error e, evs1)
    | (Except.ok accessToken, evs1) =>
      match generateIdentityToken w config accessToken audience with
      | (Except.error e, evs2) => (Except.error e, evs1 ++ evs2)
      | (Except.ok identityToken, evs2) => (Except.ok identityToken, evs1 ++ evs2)

/- ### /token handler audience validation (src/unnamed/part_001 lines 76-94) -/

/-- Outcome of the audience-validation step of handleToken: either the
request is rejected with AUDIENCE_INVALID, or acquisition proceeds with the
requested audience. -/
inductive AudienceDecision where
  | rejected (category : ErrorCategory)
  | accepted (audience : Str)
deriving DecidableEq, Repr

/-- The audience-validation step of handleToken (part_001 lines 76-94):
when the configured audiences list is non-empty, the requested audience
must equal one of its entries; otherwise the request proceeds unchecked. -/
def handleTokenAudienceCheck (audiences : List Str) (audience : Str) :
    AudienceDecision :=
  if 0 < audiences.length then
    let valid := audiences.any (fun a => a == audience)
    if !valid then AudienceDecision.rejected ErrorCategory.AudienceInvalid
    else AudienceDecision.accepted audience
  else AudienceDecision.accepted audience

/- ### Correctness lemmas for the string utilities -/

/-- Declarative substring occurrence. -/
def Occurs (sub s : Str) : Prop := ∃ u w, s = u ++ sub ++ w

theorem leadsWith_iff (p : Str) : ∀ s, leadsWith p s = true ↔ ∃ t, s = p ++ t := by
  induction p with
  | nil => intro s; simp [leadsWith]
  | cons a as ih =>
    intro s
    cases s with
    | nil => simp [leadsWith]
    | cons b bs =>
      simp only [leadsWith, Bool.and_eq_true, beq_iff_eq, ih, List.cons_append,
        List.cons.injEq]
      constructor
      · rintro ⟨rfl, t, rfl⟩; exact ⟨t, rfl, rfl⟩
      · rintro ⟨t, rfl, rfl⟩; exact ⟨rfl, t, rfl⟩

theorem containsSub_iff (sub : Str) : ∀ s, containsSub sub s = true ↔ Occurs sub s := by
  intro s
  induction s with
  | nil =>
    simp only [containsSub, leadsWith_iff, Occurs]
    constructor
    · rintro ⟨t, ht⟩
      rcases List.append_eq_nil.mp ht.symm with ⟨h1, h2⟩
      exact ⟨[], [], by simp [h1]⟩
    · rintro ⟨u, w, huw⟩
      rcases List.append_eq_nil.mp huw.symm with ⟨h1, h2⟩
      rcases List.append_eq_nil.mp h1 with ⟨h3, h4⟩
      exact ⟨[], by simp [h4]⟩
  | cons c rest ih =>
    simp only [containsSub, Bool.or_eq_true, leadsWith_iff, ih, Occurs]
    constructor
    · rintro (⟨t, ht⟩ | ⟨u, w, huw⟩)
      · exact ⟨[], t, by simp [ht]⟩
      · exact ⟨c :: u, w, by simp [huw]⟩
    · rintro ⟨u, w, huw⟩
      cases u with
      | nil => exact Or.inl ⟨w, by simpa using huw⟩
      | cons x u' =>
        right
        refine ⟨u', w, ?_⟩
        have h2 : c :: rest = x :: (u' ++ sub ++ w) := by simpa using huw
        exact (List.cons.inj h2).2

theorem findSep_none_not_occurs (sep : Str) (hsep : sep ≠ []) :
    ∀ s, findSep sep s = none → ¬ Occurs sep s := by
  intro s
  induction s with
  | nil =>
    rintro _ ⟨u, w, huw⟩
    rcases List.append_eq_nil.mp huw.symm with ⟨h1, _⟩
    exact hsep (List.append_eq_nil.mp h1).2
  | cons c rest ih =>
    intro hf hocc
    by_cases hl : leadsWith sep (c :: rest) = true
    · simp [findSep, hl] at hf
    · rcases hocc with ⟨u, w, huw⟩
      cases u with
      | nil =>
        exact hl ((leadsWith_iff sep (c :: rest)).mpr ⟨w, by simpa using huw⟩)
      | cons x u' =>
        have h2 : c :: rest = x :: (u' ++ sep ++ w) := by simpa using huw
        have hrest : findSep sep rest = none := by
          simp only [findSep, hl, if_neg, Bool.not_eq_true] at hf
          rcases hfr : findSep sep rest with _ | ⟨pre, post⟩
          · rfl
          · rw [hfr] at hf; simp at hf
        exact ih hrest ⟨u', w, (List.cons.inj h2).2⟩

theorem findSep_sound (sep : Str) :
    ∀ s pre post, findSep sep s = some (pre, post) → s = pre ++ sep ++ post := by
  intro s
  induction s with
  | nil => intro pre post h; simp [findSep] at h
  | cons c rest ih =>
    intro pre post h
    by_cases hl : leadsWith sep (c :: rest) = true
    · rcases (leadsWith_iff sep (c :: rest)).mp hl with ⟨t, ht⟩
      simp only [findSep, hl, if_pos] at h
      have hdrop : (c :: rest).drop sep.length = t := by rw [ht]; exact List.drop_left sep t
      rw [hdrop] at h
      rcases Prod.mk.injEq _ _ _ _ ▸ Option.some.inj h with ⟨h1, h2⟩
      subst h1; subst h2
      simpa using ht
    · simp only [findSep, hl, if_neg, Bool.not_eq_true] at h
      rcases hfr : findSep sep rest with _ | ⟨pre', post'⟩
      · rw [hfr] at h; simp at h
      · rw [hfr] at h
        simp only [Option.some.injEq, Prod.mk.injEq] at h
        rcases h with ⟨h1, h2⟩
        subst h2
        rw [← h1]
        simpa using congrArg (c :: ·) (ih _ _ hfr)

/-- A separator with no non-trivial border (no proper prefix equal to the
same-length proper suffix); such a separator cannot straddle the boundary
between an occurrence-free prefix and an explicit occurrence. -/
def BorderFree (sep : Str) : Prop :=
  ∀ k, k < sep.length → 0 < k → sep.take k ≠ sep.drop (sep.length - k)

theorem findSep_at (sep : Str) (hsep : sep ≠ []) (hbf : BorderFree sep) :
    ∀ u w, ¬ Occurs sep u → findSep sep (u ++ sep ++ w) = some (u, w) := by
  intro u
  induction u with
  | nil =>
    intro w _
    obtain ⟨a, as, hsa⟩ : ∃ a as, sep = a :: as := by
      cases sep with
      | nil => exact absurd rfl hsep
      | cons a as => exact ⟨a, as, rfl⟩
    subst hsa
    have hl : leadsWith (a :: as) ((a :: as) ++ w) = true :=
      (leadsWith_iff _ _).mpr ⟨w, rfl⟩
    have hshape : ([] ++ (a :: as)) ++ w = a :: (as ++ w) := by simp
    rw [List.nil_append]
    show findSep (a :: as) (a :: (as ++ w)) = some ([], w)
    have hl' : leadsWith (a :: as) (a :: (as ++ w)) = true := hl
    simp only [findSep, hl', if_pos]
    have : (a :: (as ++ w)).drop (a :: as).length = w := List.drop_left (a :: as) w
    rw [this]
  | cons c u' ih =>
    intro w hu
    have hu' : ¬ Occurs sep u' := by
      rintro ⟨x, y, hxy⟩
      exact hu ⟨c :: x, y, by simp [hxy]⟩
    have hl : leadsWith sep ((c :: u') ++ sep ++ w) = false := by
      by_contra hcon
      rw [Bool.not_eq_false] at hcon
      rcases (leadsWith_iff _ _).mp hcon with ⟨t, ht⟩
      have htake := congrArg (List.take sep.length) ht
      rw [List.take_left] at htake
      rw [List.take_append_eq_append_take, List.take_append_eq_append_take] at htake
      have hz : sep.length - ((c :: u') ++ sep).length = 0 :=
        Nat.sub_eq_zero_of_le (by simp; omega)
      rw [hz, List.take_zero, List.append_nil] at htake
      by_cases hle : sep.length ≤ (c :: u').length
      · have hz2 : sep.length - (c :: u').length = 0 := Nat.sub_eq_zero_of_le hle
        rw [hz2, List.take_zero, List.append_nil] at htake
        refine hu ⟨[], (c :: u').drop sep.length, ?_⟩
        have h3 : (c :: u').take sep.length ++ (c :: u').drop sep.length = c :: u' :=
          List.take_append_drop _ _
        rw [htake] at h3
        simpa using h3.symm
      · push_neg at hle
        have hfull : (c :: u').take sep.length = c :: u' :=
          List.take_of_length_le (Nat.le_of_lt hle)
        rw [hfull] at htake
        set k := sep.length - (c :: u').length with hk
        have hkpos : 0 < k := Nat.sub_pos_of_lt hle
        have hklt : k < sep.length := by
          have : 0 < (c :: u').length := by simp
          omega
        have hdrop := congrArg (List.drop (c :: u').length) htake
        rw [List.drop_left] at hdrop
        have hlen : (c :: u').length = sep.length - k := by omega
        rw [hlen] at hdrop
        exact hbf k hklt hkpos (hdrop ▸ rfl)
    have key : findSep sep (u' ++ sep ++ w) = some (u', w) := ih w hu'
    have hshape : (c :: u') ++ sep ++ w = c :: (u' ++ sep ++ w) := by simp
    rw [hshape]
    have hl2 : leadsWith sep (c :: (u' ++ (sep ++ w))) = false := by
      simpa [List.append_assoc] using hl
    have key2 : findSep sep (u' ++ (sep ++ w)) = some (u', w) := by
      simpa [List.append_assoc] using key
    simp [findSep, hl2, key2]

theorem splitOn_of_findSep_none (sep s : Str) (h : findSep sep s = none) :
    splitOn sep s = [s] := by
  simp [splitOn, splitOnF, h]

theorem splitOn_two (sep s u rest : Str) (h1 : findSep sep s = some (u, rest))
    (h2 : findSep sep rest = none) : splitOn sep s = [u, rest] := by
  simp only [splitOn, splitOnF, h1]
  cases hn : s.length with
  | zero => simp [splitOnF]
  | succ n => simp [splitOnF, h2]

theorem trailsWith_iff (s sfx : Str) : trailsWith s sfx = true ↔ ∃ p, s = p ++ sfx := by
  constructor
  · intro h
    simp only [trailsWith, Bool.and_eq_true, decide_eq_true_eq, beq_iff_eq] at h
    refine ⟨s.take (s.length - sfx.length), ?_⟩
    conv_lhs => rw [← List.take_append_drop (s.length - sfx.length) s]
    rw [h.2]
  · rintro ⟨p, rfl⟩
    simp only [trailsWith, Bool.and_eq_true, decide_eq_true_eq, beq_iff_eq]
    constructor
    · simp
    · have : (p ++ sfx).length - sfx.length = p.length := by simp
      rw [this, List.drop_left]

theorem containsSub_eq_false_of_not (sub s : Str) (h : ¬ Occurs sub s) :
    containsSub sub s = false := by
  cases hx : containsSub sub s with
  | false => rfl
  | true => exact absurd ((containsSub_iff _ _).mp hx) h

/- ### Claim theorems -/

/-- C7: the IAM endpoint URL used by generateIdentityToken is derived from
the descriptor's impersonation URL by exact trailing-suffix rewrite: every
URL ending with ":generateAccessToken" is rewritten to the same prefix
followed by ":generateIdToken", and every URL not ending in that exact
suffix is used completely unchanged. -/
theorem rewriteIamURL_spec :
    (∀ p : Str,
      rewriteIamURL (p ++ str ":generateAccessToken") = p ++ str ":generateIdToken") ∧
    (∀ url : Str, (¬ ∃ p, url = p ++ str ":generateAccessToken") →
      rewriteIamURL url = url) := by
  constructor
  · intro p
    have h1 : trailsWith (p ++ str ":generateAccessToken")
        (str ":generateAccessToken") = true :=
      (trailsWith_iff _ _).mpr ⟨p, rfl⟩
    simp only [rewriteIamURL, h1, if_pos]
    have hlen : (p ++ str ":generateAccessToken").length - 20 = p.length := by
      have h20 : (str ":generateAccessToken").length = 20 := by decide
      simp [h20]
    rw [hlen, List.take_left]
  · intro url h
    cases htw : trailsWith url (str ":generateAccessToken") with
    | false => simp [rewriteIamURL, htw]
    | true => exact absurd ((trailsWith_iff _ _).mp htw) h

/-- Witness for rewriteIamURL_spec at concrete URLs. -/
theorem rewriteIamURL_spec_witness :
    rewriteIamURL (str "https://x/sa/a@b") ++ [] = str "https://x/sa/a@b" := by
  have hne : ¬ ∃ p, str "https://x/sa/a@b" = p ++ str ":generateAccessToken" := by
    rintro ⟨p, hp⟩
    have hlen := congrArg List.length hp
    have h1 : (str "https://x/sa/a@b").length = 16 := by decide
    have h2 : (str ":generateAccessToken").length = 20 := by decide
    rw [h1, List.length_append, h2] at hlen
    omega
  rw [rewriteIamURL_spec.2 (str "https://x/sa/a@b") hne]
  simp

/-- C8: CategorizeNetworkError applies exactly this order of checks:
typed DNS error, typed timeout, case-insensitive substring fallback for
dial/dns/lookup then timeout/deadline, and otherwise (including nil)
INTERNAL_ERROR. -/
theorem categorizeNetworkError_spec :
    CategorizeNetworkError none = ErrorCategory.InternalError ∧
    (∀ e : GoError, e.isDNSError = true →
      CategorizeNetworkError (some e) = ErrorCategory.NetworkDNSError) ∧
    (∀ e : GoError, e.isDNSError = false → e.isTimeout = true →
      CategorizeNetworkError (some e) = ErrorCategory.NetworkTimeout) ∧
    (∀ e : GoError, e.isDNSError = false → e.isTimeout = false →
      (Occurs (str "dial") (toLowerStr e.msg) ∨ Occurs (str "dns") (toLowerStr e.msg) ∨
        Occurs (str "lookup") (toLowerStr e.msg)) →
      CategorizeNetworkError (some e) = ErrorCategory.NetworkDNSError) ∧
    (∀ e : GoError, e.isDNSError = false → e.isTimeout = false →
      ¬(Occurs (str "dial") (toLowerStr e.msg) ∨ Occurs (str "dns") (toLowerStr e.msg) ∨
        Occurs (str "lookup") (toLowerStr e.msg)) →
      (Occurs (str "timeout") (toLowerStr e.msg) ∨
        Occurs (str "deadline") (toLowerStr e.msg)) →
      CategorizeNetworkError (some e) = ErrorCategory.NetworkTimeout) ∧
    (∀ e : GoError, e.isDNSError = false → e.isTimeout = false →
      ¬(Occurs (str "dial") (toLowerStr e.msg) ∨ Occurs (str "dns") (toLowerStr e.msg) ∨
        Occurs (str "lookup") (toLowerStr e.msg)) →
      ¬(Occurs (str "timeout") (toLowerStr e.msg) ∨
        Occurs (str "deadline") (toLowerStr e.msg)) →
      CategorizeNetworkError (some e) = ErrorCategory.InternalError) := by
  refine ⟨rfl, ?_, ?_, ?_, ?_, ?_⟩
  · intro e h
    simp [CategorizeNetworkError, h]
  · intro e h1 h2
    simp [CategorizeNetworkError, h1, h2]
  · intro e h1 h2 h3
    have hb : containsSub (str "dial") (toLowerStr e.msg) = true ∨
        containsSub (str "dns") (toLowerStr e.msg) = true ∨
        containsSub (str "lookup") (toLowerStr e.msg) = true := by
      rcases h3 with h | h | h
      · exact Or.inl ((containsSub_iff _ _).mpr h)
      · exact Or.inr (Or.inl ((containsSub_iff _ _).mpr h))
      · exact Or.inr (Or.inr ((containsSub_iff _ _).mpr h))
    rcases hb with h | h | h <;> simp [CategorizeNetworkError, h1, h2, h]
  · intro e h1 h2 h3 h4
    push_neg at h3
    have hd := containsSub_eq_false_of_not _ _ h3.1
    have hn := containsSub_eq_false_of_not _ _ h3.2.1
    have hl := containsSub_eq_false_of_not _ _ h3.2.2
    have hb : containsSub (str "timeout") (toLowerStr e.msg) = true ∨
        containsSub (str "deadline") (toLowerStr e.msg) = true := by
      rcases h4 with h | h
      · exact Or.inl ((containsSub_iff _ _).mpr h)
      · exact Or.inr ((containsSub_iff _ _).mpr h)
    rcases hb with h | h <;> simp [CategorizeNetworkError, h1, h2, hd, hn, hl, h]
  · intro e h1 h2 h3 h4
    push_neg at h3
    push_neg at h4
    have hd := containsSub_eq_false_of_not _ _ h3.1
    have hn := containsSub_eq_false_of_not _ _ h3.2.1
    have hl := containsSub_eq_false_of_not _ _ h3.2.2
    have ht := containsSub_eq_false_of_not _ _ h4.1
    have he := containsSub_eq_false_of_not _ _ h4.2
    simp [CategorizeNetworkError, h1, h2, hd, hn, hl, ht, he]

/-- Witness for categorizeNetworkError_spec at concrete errors. -/
theorem categorizeNetworkError_spec_witness :
    CategorizeNetworkError (some ⟨true, false, str "x"⟩) =
      ErrorCategory.NetworkDNSError ∧
    CategorizeNetworkError (some ⟨false, false, str "Dial tcp failed"⟩) =
      ErrorCategory.NetworkDNSError ∧
    CategorizeNetworkError (some ⟨false, false, str "context deadline exceeded"⟩) =
      ErrorCategory.NetworkTimeout ∧
    CategorizeNetworkError (some ⟨false, false, str "boom"⟩) =
      ErrorCategory.InternalError := by
  refine ⟨categorizeNetworkError_spec.2.1 _ rfl, ?_, ?_, ?_⟩
  · refine categorizeNetworkError_spec.2.2.2.1 _ rfl rfl (Or.inl ?_)
    exact ⟨[], str " tcp failed", by decide⟩
  · refine categorizeNetworkError_spec.2.2.2.2.1 _ rfl rfl ?_ (Or.inr ?_)
    · rintro (⟨u, w, h⟩ | ⟨u, w, h⟩ | ⟨u, w, h⟩) <;>
      · have hc : containsSub _ _ = true := (containsSub_iff _ _).mpr ⟨u, w, h⟩
        revert hc
        decide
    · exact ⟨str "context ", str " exceeded", by decide⟩
  · refine categorizeNetworkError_spec.2.2.2.2.2 _ rfl rfl ?_ ?_
    · rintro (⟨u, w, h⟩ | ⟨u, w, h⟩ | ⟨u, w, h⟩) <;>
      · have hc : containsSub _ _ = true := (containsSub_iff _ _).mpr ⟨u, w, h⟩
        revert hc
        decide
    · rintro (⟨u, w, h⟩ | ⟨u, w, h⟩) <;>
      · have hc : containsSub _ _ = true := (containsSub_iff _ _).mpr ⟨u, w, h⟩
        revert hc
        decide

/-- C9: at the /token endpoint, an empty configured audiences list skips
validation entirely (every requested audience, including the empty string,
is accepted and passed on, and AUDIENCE_INVALID is never produced);
membership validation happens only for a non-empty list. -/
theorem handleToken_audience_spec :
    (∀ aud : Str, handleTokenAudienceCheck [] aud = AudienceDecision.accepted aud) ∧
    (∀ (cfg : List Str) (aud : Str) (cat : ErrorCategory),
      handleTokenAudienceCheck cfg aud = AudienceDecision.rejected cat →
      cfg ≠ [] ∧ aud ∉ cfg ∧ cat = ErrorCategory.AudienceInvalid) ∧
    (∀ (cfg : List Str) (aud : Str), cfg ≠ [] →
      (handleTokenAudienceCheck cfg aud = AudienceDecision.accepted aud ↔ aud ∈ cfg)) := by
  have hmem : ∀ (cfg : List Str) (aud : Str),
      cfg.any (fun a => a == aud) = true ↔ aud ∈ cfg := by
    intro cfg aud
    rw [List.any_eq_true]
    constructor
    · rintro ⟨x, hx, hxe⟩
      rw [beq_iff_eq] at hxe
      exact hxe ▸ hx
    · intro h
      exact ⟨aud, h, by simp⟩
  refine ⟨?_, ?_, ?_⟩
  · intro aud
    simp [handleTokenAudienceCheck]
  · intro cfg aud cat h
    cases cfg with
    | nil => simp [handleTokenAudienceCheck] at h
    | cons a cfg' =>
      by_cases hv : (a :: cfg').any (fun x => x == aud) = true
      · simp [handleTokenAudienceCheck, hv] at h
      · rw [Bool.not_eq_true] at hv
        simp only [handleTokenAudienceCheck, List.length_cons, hv] at h
        refine ⟨by simp, ?_, ?_⟩
        · intro hmem'
          rw [(hmem _ _).mpr hmem'] at hv
          exact Bool.true_eq_false.mp hv
        · simp at h
          exact h.symm
  · intro cfg aud hne
    cases cfg with
    | nil => exact absurd rfl hne
    | cons a cfg' =>
      constructor
      · intro h
        by_cases hv : (a :: cfg').any (fun x => x == aud) = true
        · exact (hmem _ _).mp hv
        · rw [Bool.not_eq_true] at hv
          simp [handleTokenAudienceCheck, hv] at h
      · intro h
        have hv := (hmem (a :: cfg') aud).mpr h
        simp [handleTokenAudienceCheck, hv]

/-- Witness for handleToken_audience_spec: a rejection and a non-empty
acceptance at concrete inputs. -/
theorem handleToken_audience_spec_witness :
    ([str "a"] ≠ ([] : List Str) ∧ str "b" ∉ [str "a"] ∧
      ErrorCategory.AudienceInvalid = ErrorCategory.AudienceInvalid) ∧
    (handleTokenAudienceCheck [str "a"] (str "a") = AudienceDecision.accepted (str "a")) := by
  constructor
  · exact handleToken_audience_spec.2.1 [str "a"] (str "b")
      ErrorCategory.AudienceInvalid (by decide)
  · exact (handleToken_audience_spec.2.2 [str "a"] (str "a") (by decide)).mpr (by decide)

/-- The STS request payload that exchangeToken builds from the descriptor
and the subject token (part_002 lines 434-441). -/
def stsPayload (config : GoogleApplicationCredentials) (st : Str) : STSRequest :=
  { GrantType := grantType, Audience := config.Audience, Scope := scope,
    RequestedTokenType := requestedTokenType,
    SubjectTokenType := subjectTokenType, SubjectToken := st }

/-- The IAM request payload that generateIdentityToken builds from the
caller-requested audience (part_002 lines 538-541). -/
def iamPayload (aud : Str) : IAMRequest := { Audience := aud, IncludeEmail := true }

theorem exchangeToken_events (w : World) (config : GoogleApplicationCredentials)
    (st : Str) :
    (exchangeToken w config st).2 = [Event.stsCall (stsPayload config st)] := by
  dsimp only [exchangeToken, stsPayload]
  repeat' split
  all_goals rfl

theorem generateIdentityToken_events (w : World)
    (config : GoogleApplicationCredentials) (accessToken aud : Str) :
    (generateIdentityToken w config accessToken aud).2 =
      [Event.iamCall (rewriteIamURL config.ServiceAccountImpersonationURL)
        (iamPayload aud) accessToken] := by
  dsimp only [generateIdentityToken, iamPayload]
  repeat' split
  all_goals rfl

/-- C1: in every impersonation-mode acquisition, the STS exchange request
carries the credential descriptor's WIF audience (config.Audience) with all
other fields fixed constants or the subject token read from the file, so
the caller-requested audience is never placed in it; and the IAM
impersonation request body carries exactly the caller-requested audience
(plus includeEmail), so the WIF audience is never placed in it. -/
theorem audience_separation :
    ∀ (w : World) (config : GoogleApplicationCredentials) (aud : Str),
      (∀ r : STSRequest, Event.stsCall r ∈ (GetIdentityToken w config aud).2 →
        r.Audience = config.Audience ∧ r.GrantType = grantType ∧ r.Scope = scope ∧
        r.RequestedTokenType = requestedTokenType ∧
        r.SubjectTokenType = subjectTokenType ∧
        ∃ jwt, w.readFile = Except.ok jwt ∧ r.SubjectToken = jwt) ∧
      (∀ (url : Str) (r : IAMRequest) (bearer : Str),
        Event.iamCall url r bearer ∈ (GetIdentityToken w config aud).2 →
        r.Audience = aud ∧ r.IncludeEmail = true) := by
  intro w config aud
  cases hrf : w.readFile with
  | error e =>
    constructor
    · intro r hr
      simp [GetIdentityToken, hrf] at hr
    · intro url r bearer hr
      simp [GetIdentityToken, hrf] at hr
  | ok jwt =>
    rcases hex : exchangeToken w config jwt with ⟨r1, evs1⟩
    have hev1 : evs1 = [Event.stsCall (stsPayload config jwt)] := by
      have h := exchangeToken_events w config jwt
      rw [hex] at h
      exact h
    cases r1 with
    | error e1 =>
      constructor
      · intro r hr
        simp only [GetIdentityToken, hrf, hex] at hr
        rw [hev1] at hr
        simp at hr
        subst hr
        exact ⟨rfl, rfl, rfl, rfl, rfl, jwt, rfl, rfl⟩
      · intro url r bearer hr
        simp only [GetIdentityToken, hrf, hex] at hr
        rw [hev1] at hr
        simp at hr
    | ok accessToken =>
      rcases hgen : generateIdentityToken w config accessToken aud with ⟨r2, evs2⟩
      have hev2 : evs2 = [Event.iamCall
          (rewriteIamURL config.ServiceAccountImpersonationURL)
          (iamPayload aud) accessToken] := by
        have h := generateIdentityToken_events w config accessToken aud
        rw [hgen] at h
        exact h
      constructor
      · intro r hr
        simp only [GetIdentityToken, hrf, hex, hgen] at hr
        cases r2 with
        | error e2 =>
          simp only at hr
          rw [hev1, hev2] at hr
          simp [iamPayload] at hr
          subst hr
          exact ⟨rfl, rfl, rfl, rfl, rfl, jwt, rfl, rfl⟩
        | ok tok =>
          simp only at hr
          rw [hev1, hev2] at hr
          simp [iamPayload] at hr
          subst hr
          exact ⟨rfl, rfl, rfl, rfl, rfl, jwt, rfl, rfl⟩
      · intro url r bearer hr
        simp only [GetIdentityToken, hrf, hex, hgen] at hr
        cases r2 with
        | error e2 =>
          simp only at hr
          rw [hev1, hev2] at hr
          simp [iamPayload] at hr
          refine ⟨?_, ?_⟩ <;> rw [hr.2.1]
        | ok tok =>
          simp only at hr
          rw [hev1, hev2] at hr
          simp [iamPayload] at hr
          refine ⟨?_, ?_⟩ <;> rw [hr.2.1]

/-- A concrete impersonation-mode credential descriptor for witnesses. -/
def demoConfig : GoogleApplicationCredentials :=
  { Audience := str "//iam.googleapis.com/projects/1/locations/global/workloadIdentityPools/p/providers/v",
    SubjectTokenFile := str "/var/run/service-account/token",
    ServiceAccountImpersonationURL :=
      str "https://iamcredentials.googleapis.com/v1/projects/-/serviceAccounts/sa@p.iam.gserviceaccount.com:generateAccessToken" }

/-- A concrete world in which the file read and both HTTP calls succeed. -/
def demoWorldOK : World :=
  { readFile := Except.ok (str "subject-jwt"),
    stsPost := fun _ => HttpOutcome.resp 200 []
      (some { AccessToken := str "sts-access-token", ExpiresIn := 3600,
              TokenType := str "Bearer" }),
    iamSend := fun _ _ _ => HttpOutcome.resp 200 []
      (some { Token := str "demo-id-token" }) }

/-- Witness for audience_separation on the concrete successful world. -/
theorem audience_separation_witness :
    ((stsPayload demoConfig (str "subject-jwt")).Audience = demoConfig.Audience ∧
      (stsPayload demoConfig (str "subject-jwt")).GrantType = grantType ∧
      (stsPayload demoConfig (str "subject-jwt")).Scope = scope ∧
      (stsPayload demoConfig (str "subject-jwt")).RequestedTokenType = requestedTokenType ∧
      (stsPayload demoConfig (str "subject-jwt")).SubjectTokenType = subjectTokenType ∧
      ∃ jwt, demoWorldOK.readFile = Except.ok jwt ∧
        (stsPayload demoConfig (str "subject-jwt")).SubjectToken = jwt) ∧
    ((iamPayload (str "caller-aud")).Audience = str "caller-aud" ∧
      (iamPayload (str "caller-aud")).IncludeEmail = true) := by
  constructor
  · exact (audience_separation demoWorldOK demoConfig (str "caller-aud")).1
      (stsPayload demoConfig (str "subject-jwt")) (by decide)
  · exact (audience_separation demoWorldOK demoConfig (str "caller-aud")).2
      (rewriteIamURL demoConfig.ServiceAccountImpersonationURL)
      (iamPayload (str "caller-aud")) (str "sts-access-token") (by decide)

/-- C2: GetIdentityToken runs read-file, STS exchange, IAM generation in
sequence with short-circuiting: a failing file read yields a
CategorizedError with category TOKEN_FILE_READ_ERROR and an empty request
trace (neither STS nor IAM called); an STS-step failure is returned as the
very same CategorizedError value with no IAM call; an IAM-step failure is
returned as the very same CategorizedError value (so category, operation
and status code are preserved with no re-wrapping). -/
theorem getIdentityToken_short_circuit :
    ∀ (w : World) (config : GoogleApplicationCredentials) (aud : Str),
      (∀ e : GoError, w.readFile = Except.error e →
        (GetIdentityToken w config aud).1 =
          Except.error (CategorizedError.mk' ErrorCategory.TokenFileReadError
            (str "failed to read Kubernetes token file") (some e.msg)) ∧
        (GetIdentityToken w config aud).2 = []) ∧
      (∀ (jwt : Str) (err : CategorizedError), w.readFile = Except.ok jwt →
        (exchangeToken w config jwt).1 = Except.error err →
        (GetIdentityToken w config aud).1 = Except.error err ∧
        ∀ (url : Str) (r : IAMRequest) (bearer : Str),
          Event.iamCall url r bearer ∉ (GetIdentityToken w config aud).2) ∧
      (∀ (jwt accessToken : Str) (err : CategorizedError),
        w.readFile = Except.ok jwt →
        (exchangeToken w config jwt).1 = Except.ok accessToken →
        (generateIdentityToken w config accessToken aud).1 = Except.error err →
        (GetIdentityToken w config aud).1 = Except.error err) := by
  intro w config aud
  refine ⟨?_, ?_, ?_⟩
  · intro e hrf
    constructor <;> simp [GetIdentityToken, hrf]
  · intro jwt err hrf hex1
    rcases hex : exchangeToken w config jwt with ⟨r1, evs1⟩
    rw [hex] at hex1
    simp only at hex1
    subst hex1
    have hev1 : evs1 = [Event.stsCall (stsPayload config jwt)] := by
      have h := exchangeToken_events w config jwt
      rw [hex] at h
      exact h
    constructor
    · simp [GetIdentityToken, hrf, hex]
    · intro url r bearer
      simp [GetIdentityToken, hrf, hex, hev1]
  · intro jwt accessToken err hrf hex1 hgen1
    rcases hex : exchangeToken w config jwt with ⟨r1, evs1⟩
    rw [hex] at hex1
    simp only at hex1
    subst hex1
    rcases hgen : generateIdentityToken w config accessToken aud with ⟨r2, evs2⟩
    rw [hgen] at hgen1
    simp only at hgen1
    subst hgen1
    simp [GetIdentityToken, hrf, hex, hgen]

/-- A world whose subject-token file read fails. -/
def demoWorldNoFile : World :=
  { readFile := Except.error ⟨false, false, str "open /var/run/service-account/token: no such file or directory"⟩,
    stsPost := fun _ => HttpOutcome.resp 200 [] none,
    iamSend := fun _ _ _ => HttpOutcome.resp 200 [] none }

/-- A world in which STS responds with HTTP 500. -/
def demoWorldSTS500 : World :=
  { readFile := Except.ok (str "subject-jwt"),
    stsPost := fun _ => HttpOutcome.resp 500 (str "oops") none,
    iamSend := fun _ _ _ => HttpOutcome.resp 200 [] (some { Token := str "t" }) }

/-- A world in which STS succeeds but IAM returns an empty token. -/
def demoWorldIAMEmpty : World :=
  { readFile := Except.ok (str "subject-jwt"),
    stsPost := fun _ => HttpOutcome.resp 200 []
      (some { AccessToken := str "sts-access-token", ExpiresIn := 3600,
              TokenType := str "Bearer" }),
    iamSend := fun _ _ _ => HttpOutcome.resp 200 [] (some { Token := [] }) }

/-- Witness for getIdentityToken_short_circuit on the three failing worlds. -/
theorem getIdentityToken_short_circuit_witness :
    ((GetIdentityToken demoWorldNoFile demoConfig (str "a")).1 =
        Except.error (CategorizedError.mk' ErrorCategory.TokenFileReadError
          (str "failed to read Kubernetes token file")
          (some (str "open /var/run/service-account/token: no such file or directory"))) ∧
      (GetIdentityToken demoWorldNoFile demoConfig (str "a")).2 = []) ∧
    ((GetIdentityToken demoWorldSTS500 demoConfig (str "a")).1 =
      Except.error (((CategorizedError.mk' ErrorCategory.STSNon200
        (str "STS returned non-OK status") none).withOperation
          (str "sts_exchange")).withStatusCode 500)) ∧
    ((GetIdentityToken demoWorldIAMEmpty demoConfig (str "a")).1 =
      Except.error ((CategorizedError.mk' ErrorCategory.IAMEmptyToken
        (str "empty identity token received from IAM") none).withOperation
          (str "generate_id_token"))) := by
  refine ⟨?_, ?_, ?_⟩
  · exact (getIdentityToken_short_circuit demoWorldNoFile demoConfig (str "a")).1
      ⟨false, false, str "open /var/run/service-account/token: no such file or directory"⟩ rfl
  · exact ((getIdentityToken_short_circuit demoWorldSTS500 demoConfig (str "a")).2.1
      (str "subject-jwt") _ rfl rfl).1
  · exact (getIdentityToken_short_circuit demoWorldIAMEmpty demoConfig (str "a")).2.2
      (str "subject-jwt") (str "sts-access-token") _ rfl rfl rfl

theorem splitOn_headD (sep s pre post d : Str) (h : findSep sep s = some (pre, post)) :
    (splitOn sep s).headD d = pre := by
  simp [splitOn, splitOnF, h]

theorem occurs_colon_mem (s : Str) (h : Occurs (str ":") s) : ':' ∈ s := by
  rcases h with ⟨u, w, rfl⟩
  simp [str]

/-- C5 counterexample: a well-formed impersonation URL that contains
"serviceAccounts/" but no colon after it.  GetImpersonationEmail returns
the whole remainder after "serviceAccounts/", not the empty string that the
claim requires when the colon marker is absent. -/
theorem getImpersonationEmail_no_colon_counterexample :
    ({ Audience := [], SubjectTokenFile := [],
       ServiceAccountImpersonationURL :=
         str "https://iamcredentials.googleapis.com/v1/projects/-/serviceAccounts/sa@p.iam.gserviceaccount.com" } :
      GoogleApplicationCredentials).GetImpersonationEmail =
        str "sa@p.iam.gserviceaccount.com" ∧
    str "sa@p.iam.gserviceaccount.com" ≠ ([] : Str) := by
  constructor
  · decide
  · decide

/-- C5 amended: for the empty URL or a URL not containing
"serviceAccounts/", GetImpersonationEmail returns the empty string; when
the URL is u ++ "serviceAccounts/" ++ rest with no other occurrence of the
marker, the result is rest truncated at the first following colon when one
exists, and the WHOLE remainder rest (not the empty string) when no colon
follows. -/
theorem getImpersonationEmail_spec :
    ∀ g : GoogleApplicationCredentials,
      (g.ServiceAccountImpersonationURL = [] →
        g.GetImpersonationEmail = []) ∧
      (¬ Occurs (str "serviceAccounts/") g.ServiceAccountImpersonationURL →
        g.GetImpersonationEmail = []) ∧
      (∀ u rest,
        g.ServiceAccountImpersonationURL = u ++ str "serviceAccounts/" ++ rest →
        ¬ Occurs (str "serviceAccounts/") u →
        ¬ Occurs (str "serviceAccounts/") rest →
        (∀ e t, rest = e ++ str ":" ++ t → ':' ∉ e →
          g.GetImpersonationEmail = e) ∧
        (':' ∉ rest → g.GetImpersonationEmail = rest)) := by
  have hsep : str "serviceAccounts/" ≠ [] := by decide
  have hbf : BorderFree (str "serviceAccounts/") := by unfold BorderFree; decide
  have hsepc : str ":" ≠ [] := by decide
  have hbfc : BorderFree (str ":") := by unfold BorderFree; decide
  intro g
  refine ⟨?_, ?_, ?_⟩
  · intro h
    simp [GoogleApplicationCredentials.GetImpersonationEmail, h]
  · intro hno
    by_cases hurl : g.ServiceAccountImpersonationURL = []
    · simp [GoogleApplicationCredentials.GetImpersonationEmail, hurl]
    · cases hf : findSep (str "serviceAccounts/") g.ServiceAccountImpersonationURL with
      | none =>
        have hs := splitOn_of_findSep_none _ _ hf
        simp [GoogleApplicationCredentials.GetImpersonationEmail, hurl, hs]
      | some pp =>
        exact absurd ⟨pp.1, pp.2, findSep_sound _ _ _ _ (by rw [hf])⟩ hno
  · intro u rest hdecomp hu hrest
    have hurl : g.ServiceAccountImpersonationURL ≠ [] := by
      rw [hdecomp]
      intro hz
      rcases List.append_eq_nil.mp hz with ⟨h1, _⟩
      exact hsep (List.append_eq_nil.mp h1).2
    have hf1 : findSep (str "serviceAccounts/") g.ServiceAccountImpersonationURL =
        some (u, rest) := by
      rw [hdecomp]
      exact findSep_at _ hsep hbf u rest hu
    have hf2 : findSep (str "serviceAccounts/") rest = none := by
      cases hf : findSep (str "serviceAccounts/") rest with
      | none => rfl
      | some pp =>
        exact absurd ⟨pp.1, pp.2, findSep_sound _ _ _ _ (by rw [hf])⟩ hrest
    have hparts : splitOn (str "serviceAccounts/") g.ServiceAccountImpersonationURL =
        [u, rest] := splitOn_two _ _ _ _ hf1 hf2
    constructor
    · intro e t hre hce
      have hfc : findSep (str ":") rest = some (e, t) := by
        rw [hre]
        refine findSep_at _ hsepc hbfc e t ?_
        intro hocc
        exact hce (occurs_colon_mem e hocc)
      have hhead : (splitOn (str ":") rest).headD [] = e :=
        splitOn_headD _ _ _ _ _ hfc
      simp only [GoogleApplicationCredentials.GetImpersonationEmail, hparts]
      rw [if_neg hurl]
      rw [if_neg (show ¬ ([u, rest] : List Str).length < 2 by simp)]
      have hget : ([u, rest] : List Str).getD 1 [] = rest := rfl
      rw [hget]
      exact hhead
    · intro hc
      have hfc : findSep (str ":") rest = none := by
        cases hf : findSep (str ":") rest with
        | none => rfl
        | some pp =>
          refine absurd (occurs_colon_mem rest ⟨pp.1, pp.2, ?_⟩) hc
          exact findSep_sound _ _ _ _ (by rw [hf])
      have hs := splitOn_of_findSep_none _ _ hfc
      simp only [GoogleApplicationCredentials.GetImpersonationEmail, hparts]
      rw [if_neg hurl]
      rw [if_neg (show ¬ ([u, rest] : List Str).length < 2 by simp)]
      have hget : ([u, rest] : List Str).getD 1 [] = rest := rfl
      rw [hget, hs]
      rfl

/-- Witness for getImpersonationEmail_spec at a concrete impersonation URL. -/
theorem getImpersonationEmail_spec_witness :
    demoConfig.GetImpersonationEmail = str "sa@p.iam.gserviceaccount.com" := by
  have hnotin : ∀ s : Str, containsSub (str "serviceAccounts/") s = false →
      ¬ Occurs (str "serviceAccounts/") s := by
    intro s hs hocc
    rw [(containsSub_iff _ _).mpr hocc] at hs
    exact Bool.true_eq_false.mp hs
  exact ((getImpersonationEmail_spec demoConfig).2.2
    (str "https://iamcredentials.googleapis.com/v1/projects/-/")
    (str "sa@p.iam.gserviceaccount.com:generateAccessToken")
    (by decide) (hnotin _ (by decide)) (hnotin _ (by decide))).1
    (str "sa@p.iam.gserviceaccount.com") (str "generateAccessToken")
    (by decide) (by decide)

/-- C6: ExtractGoogleError returns (403, PERMISSION_DENIED, Access denied)
on the nested Google error shape, (0, invalid_grant, Token has expired) on
the flat OAuth shape, falls back to code 0, empty status and the
JWT-sanitized raw body whenever neither shape decodes, and always passes
the returned message through the JWT text sanitizer. -/
theorem extractGoogleError_spec :
    ExtractGoogleError
        (str "\x7b\"error\":\x7b\"code\":403,\"status\":\"PERMISSION_DENIED\",\"message\":\"Access denied\"\x7d\x7d")
        (some (Json.obj [(str "error", Json.obj
          [(str "code", Json.num 403),
           (str "status", Json.str (str "PERMISSION_DENIED")),
           (str "message", Json.str (str "Access denied"))])])) =
      (403, str "PERMISSION_DENIED", str "Access denied") ∧
    ExtractGoogleError
        (str "\x7b\"error\":\"invalid_grant\",\"error_description\":\"Token has expired\"\x7d")
        (some (Json.obj
          [(str "error", Json.str (str "invalid_grant")),
           (str "error_description", Json.str (str "Token has expired"))])) =
      (0, str "invalid_grant", str "Token has expired") ∧
    (∀ (body : Str) (parsed : Option Json), body ≠ [] →
      parsed.bind decodeNestedError = none →
      parsed.bind decodeFlatError = none →
      ExtractGoogleError body parsed = (0, [], SanitizeString body)) ∧
    (∀ (body : Str) (parsed : Option Json),
      ∃ m, (ExtractGoogleError body parsed).2.2 = SanitizeString m) := by
  refine ⟨by decide, by decide, ?_, ?_⟩
  · intro body parsed hb h1 h2
    simp [ExtractGoogleError, hb, h1, h2]
  · intro body parsed
    by_cases hb : body = []
    · refine ⟨[], ?_⟩
      simp only [ExtractGoogleError, hb, if_pos]
      rfl
    · cases h1 : parsed.bind decodeNestedError with
      | some v =>
        obtain ⟨code, status, message⟩ := v
        exact ⟨message, by simp [ExtractGoogleError, hb, h1]⟩
      | none =>
        cases h2 : parsed.bind decodeFlatError with
        | some v =>
          obtain ⟨ec, ed⟩ := v
          exact ⟨ed, by simp [ExtractGoogleError, hb, h1, h2]⟩
        | none => exact ⟨body, by simp [ExtractGoogleError, hb, h1, h2]⟩

/-- Witness for extractGoogleError_spec: the fallback branch at a concrete
non-JSON body. -/
theorem extractGoogleError_spec_witness :
    ExtractGoogleError (str "upstream exploded") none =
      (0, [], SanitizeString (str "upstream exploded")) := by
  exact extractGoogleError_spec.2.2.1 (str "upstream exploded") none
    (by decide) rfl rfl

/-- Depth-invariant absence of sensitive leaks: in every object at any
nesting depth, every binding with a sensitive key holds the literal
[REDACTED] string. -/
inductive NoLeaks : Json → Prop where
  | null : NoLeaks Json.null
  | bool (b : Bool) : NoLeaks (Json.bool b)
  | num (n : Int) : NoLeaks (Json.num n)
  | str (t : Str) : NoLeaks (Json.str t)
  | arr (xs : List Json) : (∀ v ∈ xs, NoLeaks v) → NoLeaks (Json.arr xs)
  | obj (m : List (Str × Json)) :
      (∀ k v, (k, v) ∈ m → isSensitiveField k = true → v = Json.str RedactedValue) →
      (∀ k v, (k, v) ∈ m → NoLeaks v) →
      NoLeaks (Json.obj m)

mutual

theorem sanitizeMap_noLeaks : ∀ m : List (Str × Json), ∀ k v,
    (k, v) ∈ sanitizeMap m →
    (isSensitiveField k = true → v = Json.str RedactedValue) ∧ NoLeaks v
  | [] => by
    intro k v h
    simp [sanitizeMap] at h
  | (k0, v0) :: rest => by
    intro k v h
    by_cases hs : isSensitiveField k0 = true
    · rw [sanitizeMap, if_pos hs] at h
      rcases List.mem_cons.mp h with heq | hmem
      · rcases Prod.mk.injEq _ _ _ _ ▸ heq with ⟨h1, h2⟩
        subst h1; subst h2
        exact ⟨fun _ => rfl, NoLeaks.str _⟩
      · exact sanitizeMap_noLeaks rest k v hmem
    · rw [sanitizeMap, if_neg hs] at h
      rcases List.mem_cons.mp h with heq | hmem
      · rcases Prod.mk.injEq _ _ _ _ ▸ heq with ⟨h1, h2⟩
        subst h1; subst h2
        rw [Bool.not_eq_true] at hs
        exact ⟨fun hk => absurd hk (by simp [hs]), sanitizeEntry_noLeaks v0⟩
      · exact sanitizeMap_noLeaks rest k v hmem

theorem sanitizeEntry_noLeaks : ∀ j : Json, NoLeaks (sanitizeEntry j)
  | Json.null => NoLeaks.null
  | Json.bool b => NoLeaks.bool b
  | Json.num n => NoLeaks.num n
  | Json.str _ => NoLeaks.str _
  | Json.arr xs => NoLeaks.arr _ (sanitizeSlice_noLeaks xs)
  | Json.obj m =>
    NoLeaks.obj _ (fun k v h hk => (sanitizeMap_noLeaks m k v h).1 hk)
      (fun k v h => (sanitizeMap_noLeaks m k v h).2)

theorem sanitizeSlice_noLeaks : ∀ xs : List Json, ∀ v ∈ sanitizeSlice xs, NoLeaks v
  | [] => by
    intro v hv
    simp [sanitizeSlice] at hv
  | x :: rest => by
    intro v hv
    rw [sanitizeSlice] at hv
    rcases List.mem_cons.mp hv with heq | hmem
    · exact heq ▸ sanitizeEntry_noLeaks x
    · exact sanitizeSlice_noLeaks rest v hmem

end

theorem sanitizeMap_mem_sensitive : ∀ (m : List (Str × Json)) (k : Str) (v : Json),
    (k, v) ∈ m → isSensitiveField k = true →
    (k, Json.str RedactedValue) ∈ sanitizeMap m := by
  intro m
  induction m with
  | nil => intro k v h _; simp at h
  | cons kv rest ih =>
    intro k v h hk
    obtain ⟨k0, v0⟩ := kv
    rcases List.mem_cons.mp h with heq | hmem
    · rcases Prod.mk.injEq _ _ _ _ ▸ heq with ⟨h1, h2⟩
      subst h1
      rw [sanitizeMap, if_pos hk]
      exact List.mem_cons_self _ _
    · by_cases hs : isSensitiveField k0 = true
      · rw [sanitizeMap, if_pos hs]
        exact List.mem_cons_of_mem _ (ih k v hmem hk)
      · rw [sanitizeMap, if_neg hs]
        exact List.mem_cons_of_mem _ (ih k v hmem hk)

theorem sanitizeMap_mem_preserved : ∀ (m : List (Str × Json)) (k : Str) (v : Json),
    (k, v) ∈ m → isSensitiveField k = false →
    (k, sanitizeEntry v) ∈ sanitizeMap m := by
  intro m
  induction m with
  | nil => intro k v h _; simp at h
  | cons kv rest ih =>
    intro k v h hk
    obtain ⟨k0, v0⟩ := kv
    rcases List.mem_cons.mp h with heq | hmem
    · rcases Prod.mk.injEq _ _ _ _ ▸ heq with ⟨h1, h2⟩
      subst h1; subst h2
      rw [sanitizeMap, if_neg (by simp [hk])]
      exact List.mem_cons_self _ _
    · by_cases hs : isSensitiveField k0 = true
      · rw [sanitizeMap, if_pos hs]
        exact List.mem_cons_of_mem _ (ih k v hmem hk)
      · rw [sanitizeMap, if_neg hs]
        exact List.mem_cons_of_mem _ (ih k v hmem hk)

/-- C3: for JSON-object input, SanitizeJSON produces the recursive
sanitization in which, at every nesting depth, every sensitive-keyed field
holds the literal [REDACTED] (NoLeaks); each sensitive binding of the input
is redacted and each non-sensitive sibling is preserved up to the recursive
string sanitization; empty input yields the empty string. -/
theorem sanitizeJSON_redacts :
    ∀ (data : Str) (parsed : Option Json),
      (data = [] → SanitizeJSON data parsed = SanOut.text []) ∧
      (∀ m, data ≠ [] → parsed = some (Json.obj m) →
        SanitizeJSON data parsed = SanOut.json (Json.obj (sanitizeMap m)) ∧
        NoLeaks (Json.obj (sanitizeMap m)) ∧
        (∀ k v, (k, v) ∈ m → isSensitiveField k = true →
          (k, Json.str RedactedValue) ∈ sanitizeMap m) ∧
        (∀ k v, (k, v) ∈ m → isSensitiveField k = false →
          (k, sanitizeEntry v) ∈ sanitizeMap m)) := by
  intro data parsed
  constructor
  · intro h
    simp [SanitizeJSON, h]
  · intro m hd hp
    subst hp
    refine ⟨by simp [SanitizeJSON, hd],
      NoLeaks.obj _ (fun k v h hk => (sanitizeMap_noLeaks m k v h).1 hk)
        (fun k v h => (sanitizeMap_noLeaks m k v h).2), ?_, ?_⟩
    · intro k v h hk
      exact sanitizeMap_mem_sensitive m k v h hk
    · intro k v h hk
      exact sanitizeMap_mem_preserved m k v h hk

/-- Witness for sanitizeJSON_redacts at a concrete object carrying a
sensitive and a non-sensitive field. -/
theorem sanitizeJSON_redacts_witness :
    SanitizeJSON (str "\x7b\"access_token\":\"secret\",\"note\":\"ok\"\x7d")
        (some (Json.obj [(str "access_token", Json.str (str "secret")),
                         (str "note", Json.str (str "ok"))])) =
      SanOut.json (Json.obj (sanitizeMap
        [(str "access_token", Json.str (str "secret")),
         (str "note", Json.str (str "ok"))])) ∧
    (str "access_token", Json.str RedactedValue) ∈ sanitizeMap
      [(str "access_token", Json.str (str "secret")),
       (str "note", Json.str (str "ok"))] ∧
    (str "note", sanitizeEntry (Json.str (str "ok"))) ∈ sanitizeMap
      [(str "access_token", Json.str (str "secret")),
       (str "note", Json.str (str "ok"))] := by
  have h := (sanitizeJSON_redacts (str "\x7b\"access_token\":\"secret\",\"note\":\"ok\"\x7d")
    (some (Json.obj [(str "access_token", Json.str (str "secret")),
                     (str "note", Json.str (str "ok"))]))).2
    [(str "access_token", Json.str (str "secret")),
     (str "note", Json.str (str "ok"))] (by decide) rfl
  refine ⟨h.1, ?_, ?_⟩
  · exact h.2.2.1 (str "access_token") (Json.str (str "secret"))
      (List.mem_cons_self _ _) (by decide)
  · exact h.2.2.2 (str "note") (Json.str (str "ok"))
      (List.mem_cons_of_mem _ (List.mem_cons_self _ _)) (by decide)

/-- C10: SanitizeJSON unmarshals only a top-level JSON object; valid JSON
whose top level is not an object (for example an array of objects) takes
the non-JSON fallback path and receives only JWT-pattern text
sanitization, so sensitive keys nested inside a top-level array are not
key-redacted. -/
theorem sanitizeJSON_top_level_non_object :
    (∀ (data : Str) (parsed : Option Json) (j : Json), data ≠ [] →
      parsed = some j → (∀ m, j ≠ Json.obj m) →
      SanitizeJSON data parsed = SanOut.text (SanitizeString data)) ∧
    (SanitizeJSON (str "[\x7b\"token\":\"secretvalue\"\x7d]")
        (some (Json.arr [Json.obj [(str "token", Json.str (str "secretvalue"))]])) =
      SanOut.text (str "[\x7b\"token\":\"secretvalue\"\x7d]") ∧
      Occurs (str "secretvalue") (str "[\x7b\"token\":\"secretvalue\"\x7d]")) := by
  refine ⟨?_, ?_, ?_⟩
  · intro data parsed j hd hp hobj
    subst hp
    cases j with
    | obj m => exact absurd rfl (hobj m)
    | null => simp [SanitizeJSON, hd]
    | bool b => simp [SanitizeJSON, hd]
    | num n => simp [SanitizeJSON, hd]
    | str s => simp [SanitizeJSON, hd]
    | arr xs => simp [SanitizeJSON, hd]
  · rfl
  · exact ⟨str "[\x7b\"token\":\"", str "\"\x7d]", by decide⟩

/-- Witness for sanitizeJSON_top_level_non_object at a concrete top-level
array. -/
theorem sanitizeJSON_top_level_non_object_witness :
    SanitizeJSON (str "[1,2]") (some (Json.arr [Json.num 1, Json.num 2])) =
      SanOut.text (SanitizeString (str "[1,2]")) := by
  exact sanitizeJSON_top_level_non_object.1 (str "[1,2]")
    (some (Json.arr [Json.num 1, Json.num 2])) (Json.arr [Json.num 1, Json.num 2])
    (by decide) rfl (fun m h => Json.noConfusion h)

/- ### Declarative specification of the JWT pattern and its replacement -/

/-- A JWT-shaped string: three runs of at least 20 characters from the
URL-safe base64 class, separated by dots. -/
def JwtShaped (v : Str) : Prop :=
  ∃ a b c, v = a ++ ('.' :: (b ++ ('.' :: c))) ∧
    (∀ x ∈ a, isClassChar x = true) ∧ (∀ x ∈ b, isClassChar x = true) ∧
    (∀ x ∈ c, isClassChar x = true) ∧
    20 ≤ a.length ∧ 20 ≤ b.length ∧ 20 ≤ c.length

/-- The opening word boundary holds before the first matched character. -/
def StartBnd (prev : Option Char) (v : Str) : Prop :=
  ∃ c t, v = c :: t ∧ atBoundary prev c = true

/-- The closing word-boundary test after the last matched character. -/
def endOk (lc : Char) : Option Char → Bool
  | none => isWordChar lc
  | some d => isWordChar lc != isWordChar d

/-- The closing word boundary holds between the matched text and what
follows. -/
def EndBnd (v rest : Str) : Prop :=
  ∃ lc, v.getLast? = some lc ∧ endOk lc rest.head? = true

/-- A boundary-anchored JWT match starting exactly at the head of `l`
(`prev` is the character just before `l`). -/
def HasMatch (prev : Option Char) (l : Str) : Prop :=
  ∃ v rest, l = v ++ rest ∧ JwtShaped v ∧ StartBnd prev v ∧ EndBnd v rest

/-- A boundary-anchored JWT occurrence anywhere in `s`. -/
def HasJwtOccurrence (s : Str) : Prop :=
  ∃ u v w, s = u ++ v ++ w ∧ JwtShaped v ∧ StartBnd u.getLast? v ∧ EndBnd v w

/- ### List lemmas for the matcher -/

theorem takeWhile_all_append (p : Char → Bool) :
    ∀ (a t : Str), (∀ x ∈ a, p x = true) →
      (a ++ t).takeWhile p = a ++ t.takeWhile p ∧
      (a ++ t).dropWhile p = t.dropWhile p := by
  intro a
  induction a with
  | nil => intro t _; simp
  | cons c a' ih =>
    intro t h
    have hc : p c = true := h c (List.mem_cons_self _ _)
    have h2 := ih t (fun x hx => h x (List.mem_cons_of_mem _ hx))
    simp [List.takeWhile_cons, List.dropWhile_cons, hc, h2.1, h2.2]

theorem takeWhile_stop (p : Char → Bool) (a : Str) (d : Char) (t : Str)
    (ha : ∀ x ∈ a, p x = true) (hd : p d = false) :
    (a ++ d :: t).takeWhile p = a ∧ (a ++ d :: t).dropWhile p = d :: t := by
  have h := takeWhile_all_append p a (d :: t) ha
  rw [List.takeWhile_cons, List.dropWhile_cons] at h
  simp [hd] at h
  exact h

theorem dropWhile_length_ge (p : Char → Bool) :
    ∀ (l1 : Str) (d : Char) (l2 : Str), p d = false →
      l2.length + 1 ≤ ((l1 ++ d :: l2).dropWhile p).length := by
  intro l1
  induction l1 with
  | nil =>
    intro d l2 hd
    simp [List.dropWhile_cons, hd]
  | cons c l1' ih =>
    intro d l2 hd
    by_cases hc : p c = true
    · rw [List.cons_append, List.dropWhile_cons, if_pos hc]
      exact ih d l2 hd
    · rw [List.cons_append, List.dropWhile_cons,
        if_neg (by simp [Bool.not_eq_true] at hc; simp [hc])]
      simp
      omega

theorem dropTrailingNonWord_decomp (r : Str) :
    ∃ t, r = dropTrailingNonWord r ++ t ∧ (∀ x ∈ t, isWordChar x = false) := by
  refine ⟨(r.reverse.takeWhile (fun d => !(isWordChar d))).reverse, ?_, ?_⟩
  · have h := List.takeWhile_append_dropWhile (fun d => !(isWordChar d)) r.reverse
    have h2 := congrArg List.reverse h
    rw [List.reverse_append, List.reverse_reverse] at h2
    exact h2.symm
  · intro x hx
    rw [List.mem_reverse] at hx
    have := List.mem_takeWhile_imp hx
    simpa using this

theorem dropTrailingNonWord_last (r : Str) (h : dropTrailingNonWord r ≠ []) :
    ∃ lc, (dropTrailingNonWord r).getLast? = some lc ∧ isWordChar lc = true := by
  unfold dropTrailingNonWord at h ⊢
  rw [List.getLast?_reverse]
  have hne : r.reverse.dropWhile (fun d => !(isWordChar d)) ≠ [] := by
    intro hz
    rw [hz] at h
    exact h rfl
  have hh := List.head?_dropWhile_not (fun d => !(isWordChar d)) r.reverse
  cases hq : (r.reverse.dropWhile (fun d => !(isWordChar d))).head? with
  | none => exact absurd (List.head?_eq_none_iff.mp hq) hne
  | some lc =>
    rw [hq] at hh
    exact ⟨lc, rfl, by simpa using hh⟩

theorem dropTrailingNonWord_mem (r : Str) :
    ∀ x ∈ dropTrailingNonWord r, x ∈ r := by
  intro x hx
  unfold dropTrailingNonWord at hx
  rw [List.mem_reverse] at hx
  have := (List.dropWhile_sublist (fun d => !(isWordChar d))).mem hx
  simpa using this

theorem dropTrailingNonWord_ge (r x : Str) (d : Char) (y : Str)
    (hr : r = x ++ d :: y) (hd : isWordChar d = true) :
    x.length + 1 ≤ (dropTrailingNonWord r).length := by
  unfold dropTrailingNonWord
  rw [List.length_reverse]
  have hrev : r.reverse = y.reverse ++ d :: x.reverse := by
    rw [hr]
    simp
  rw [hrev]
  have hg := dropWhile_length_ge (fun e => !(isWordChar e)) y.reverse d x.reverse
    (by show (!(isWordChar d)) = false; rw [hd]; rfl)
  rw [List.length_reverse] at hg
  exact hg

theorem word_imp_class (c : Char) (h : isWordChar c = true) : isClassChar c = true := by
  simp only [isWordChar, Bool.or_eq_true] at h
  simp only [isClassChar, Bool.or_eq_true]
  tauto

theorem head_dropWhile_false (p : Char → Bool) (l : Str) (e : Char)
    (h : (l.dropWhile p).head? = some e) : p e = false := by
  have hh := List.head?_dropWhile_not p l
  rw [h] at hh
  exact hh

theorem not_class_imp_not_word (e : Char) (h : isClassChar e = false) :
    isWordChar e = false := by
  cases hw : isWordChar e
  · rfl
  · exact absurd (word_imp_class e hw) (by simp [h])

theorem matchAt_sound (prev : Option Char) (l : Str) (n : Nat) (lc : Char)
    (h : matchAt prev l = some (n, lc)) :
    ∃ v rest, l = v ++ rest ∧ v.length = n ∧ v.getLast? = some lc ∧
      JwtShaped v ∧ StartBnd prev v ∧ EndBnd v rest := by
  cases l with
  | nil => simp [matchAt] at h
  | cons c l0 =>
    rw [matchAt] at h
    by_cases hb : atBoundary prev c = true
    swap
    · rw [if_neg hb] at h; exact Option.noConfusion h
    rw [if_pos hb] at h
    by_cases h1 : 20 ≤ ((c :: l0).takeWhile isClassChar).length
    swap
    · rw [if_neg h1] at h; exact Option.noConfusion h
    rw [if_pos h1] at h
    cases hd1 : (c :: l0).dropWhile isClassChar with
    | nil => rw [hd1] at h; exact Option.noConfusion h
    | cons d1 l2 =>
      rw [hd1] at h
      dsimp only at h
      by_cases hdot1 : d1 = '.'
      swap
      · rw [if_neg hdot1] at h; exact Option.noConfusion h
      rw [if_pos hdot1] at h
      subst hdot1
      by_cases h2 : 20 ≤ (l2.takeWhile isClassChar).length
      swap
      · rw [if_neg h2] at h; exact Option.noConfusion h
      rw [if_pos h2] at h
      cases hd2 : l2.dropWhile isClassChar with
      | nil => rw [hd2] at h; exact Option.noConfusion h
      | cons d2 l3 =>
        rw [hd2] at h
        dsimp only at h
        by_cases hdot2 : d2 = '.'
        swap
        · rw [if_neg hdot2] at h; exact Option.noConfusion h
        rw [if_pos hdot2] at h
        subst hdot2
        by_cases h3 : 20 ≤ (dropTrailingNonWord (l3.takeWhile isClassChar)).length
        swap
        · rw [if_neg h3] at h; exact Option.noConfusion h
        rw [if_pos h3] at h
        injection h with h'
        cases h'
        obtain ⟨t, ht, htw⟩ := dropTrailingNonWord_decomp (l3.takeWhile isClassChar)
        have hkne : dropTrailingNonWord (l3.takeWhile isClassChar) ≠ [] := by
          intro hz
          rw [hz] at h3
          simp at h3
        obtain ⟨lc0, hlc0, hlcw⟩ := dropTrailingNonWord_last _ hkne
        refine ⟨((c :: l0).takeWhile isClassChar) ++
            ('.' :: ((l2.takeWhile isClassChar) ++
              ('.' :: dropTrailingNonWord (l3.takeWhile isClassChar)))),
          t ++ l3.dropWhile isClassChar, ?_, ?_, ?_, ?_, ?_, ?_⟩
        · have f1 : (c :: l0 : Str) = (c :: l0).takeWhile isClassChar ++ ('.' :: l2) := by
            rw [← hd1]
            exact (List.takeWhile_append_dropWhile _ _).symm
          have f2 : l2 = l2.takeWhile isClassChar ++ ('.' :: l3) := by
            rw [← hd2]
            exact (List.takeWhile_append_dropWhile _ _).symm
          have f3 : l3 = (dropTrailingNonWord (l3.takeWhile isClassChar) ++ t) ++
              l3.dropWhile isClassChar := by
            rw [← ht]
            exact (List.takeWhile_append_dropWhile _ _).symm
          conv_lhs => rw [f1, f2, f3]
          simp [List.append_assoc]
        · simp [List.length_append]
          omega
        · have hkc : ∃ k0 k', dropTrailingNonWord (l3.takeWhile isClassChar) = k0 :: k' := by
            cases hk : dropTrailingNonWord (l3.takeWhile isClassChar) with
            | nil => exact absurd hk hkne
            | cons k0 k' => exact ⟨k0, k', rfl⟩
          obtain ⟨k0, k', hk⟩ := hkc
          have hre : ((c :: l0).takeWhile isClassChar) ++
              ('.' :: ((l2.takeWhile isClassChar) ++
                ('.' :: dropTrailingNonWord (l3.takeWhile isClassChar)))) =
              (((c :: l0).takeWhile isClassChar) ++
                ('.' :: (l2.takeWhile isClassChar))) ++
                ('.' :: dropTrailingNonWord (l3.takeWhile isClassChar)) := by
            simp [List.append_assoc]
          rw [hre, List.getLast?_append_cons, hk, List.getLast?_cons_cons, ← hk, hlc0,
            List.getLastD_eq_getLast?, hlc0]
          rfl
        · refine ⟨(c :: l0).takeWhile isClassChar, l2.takeWhile isClassChar,
            dropTrailingNonWord (l3.takeWhile isClassChar), rfl, ?_, ?_, ?_, h1, h2, h3⟩
          · intro x hx; exact List.mem_takeWhile_imp hx
          · intro x hx; exact List.mem_takeWhile_imp hx
          · intro x hx
            exact List.mem_takeWhile_imp (dropTrailingNonWord_mem _ x hx)
        · have hane : (c :: l0).takeWhile isClassChar ≠ [] := by
            intro hz
            rw [hz] at h1
            simp at h1
          obtain ⟨a0, a', ha⟩ : ∃ a0 a', (c :: l0).takeWhile isClassChar = a0 :: a' := by
            cases hk : (c :: l0).takeWhile isClassChar with
            | nil => exact absurd hk hane
            | cons a0 a' => exact ⟨a0, a', rfl⟩
          have ha0 : a0 = c := by
            have := List.takeWhile_append_dropWhile isClassChar (c :: l0)
            rw [ha, hd1] at this
            exact (List.cons.inj this).1
          refine ⟨c, a' ++ ('.' :: ((l2.takeWhile isClassChar) ++
            ('.' :: dropTrailingNonWord (l3.takeWhile isClassChar)))), ?_, hb⟩
          rw [ha, ha0]
          rfl
        · refine ⟨lc0, ?_, ?_⟩
          · obtain ⟨k0, k', hk⟩ : ∃ k0 k',
                dropTrailingNonWord (l3.takeWhile isClassChar) = k0 :: k' := by
              cases hk : dropTrailingNonWord (l3.takeWhile isClassChar) with
              | nil => exact absurd hk hkne
              | cons k0 k' => exact ⟨k0, k', rfl⟩
            have hre : ((c :: l0).takeWhile isClassChar) ++
                ('.' :: ((l2.takeWhile isClassChar) ++
                  ('.' :: dropTrailingNonWord (l3.takeWhile isClassChar)))) =
                (((c :: l0).takeWhile isClassChar) ++
                  ('.' :: (l2.takeWhile isClassChar))) ++
                  ('.' :: dropTrailingNonWord (l3.takeWhile isClassChar)) := by
              simp [List.append_assoc]
            rw [hre, List.getLast?_append_cons, hk, List.getLast?_cons_cons, ← hk, hlc0]
          · cases htc : t with
            | cons e t' =>
              have hew : isWordChar e = false := htw e (htc ▸ List.mem_cons_self _ _)
              simp only [List.cons_append, List.head?_cons]
              simp [endOk, hlcw, hew]
            | nil =>
              simp only [List.nil_append]
              cases hhd : (l3.dropWhile isClassChar).head? with
              | none => simp [endOk, hhd, hlcw]
              | some e =>
                have hec : isClassChar e = false := head_dropWhile_false _ _ _ hhd
                have hew : isWordChar e = false := not_class_imp_not_word e hec
                simp [endOk, hhd, hlcw, hew]

theorem getLast?_some_decomp (l : Str) (a : Char) (h : l.getLast? = some a) :
    ∃ t, l = t ++ [a] := by
  induction l with
  | nil => simp at h
  | cons x l' ih =>
    cases l' with
    | nil =>
      simp at h
      exact ⟨[], by simp [h]⟩
    | cons y l'' =>
      rw [List.getLast?_cons_cons] at h
      obtain ⟨t, ht⟩ := ih h
      exact ⟨x :: t, by rw [List.cons_append, ← ht]⟩

theorem matchAt_complete (prev : Option Char) (l : Str) (hm : HasMatch prev l) :
    matchAt prev l ≠ none := by
  obtain ⟨v, rest, hl, ⟨a, b, c3, hv, ha, hb2, hc3, hla, hlb, hlc⟩,
    ⟨c0, t0, hct, hbnd⟩, ⟨lc, hlast, hend⟩⟩ := hm
  obtain ⟨a0, a2, haa⟩ : ∃ a0 a2, a = a0 :: a2 := by
    cases hk : a with
    | nil => rw [hk] at hla; simp at hla
    | cons a0 a2 => exact ⟨a0, a2, rfl⟩
  obtain ⟨c30, c3t, hc3c⟩ : ∃ c30 c3t, c3 = c30 :: c3t := by
    cases hk : c3 with
    | nil => rw [hk] at hlc; simp at hlc
    | cons c30 c3t => exact ⟨c30, c3t, rfl⟩
  have hdot : isClassChar '.' = false := by decide
  have hshape : l = a ++ ('.' :: (b ++ ('.' :: (c3 ++ rest)))) := by
    rw [hl, hv]
    simp [List.append_assoc]
  have hcons : l = a0 :: (a2 ++ ('.' :: (b ++ ('.' :: (c3 ++ rest))))) := by
    rw [hshape, haa]
    rfl
  have hc0 : c0 = a0 := by
    have hv0 : v = a0 :: (a2 ++ ('.' :: (b ++ ('.' :: c3)))) := by
      rw [hv, haa]
      rfl
    rw [hv0] at hct
    exact (List.cons.inj hct).1.symm
  have hbnd' : atBoundary prev a0 = true := hc0 ▸ hbnd
  -- the last character of the matched text is the last of the third run
  have hlastc3 : c3.getLast? = some lc := by
    have hre : v = (a ++ ('.' :: b)) ++ ('.' :: c3) := by
      rw [hv]
      simp [List.append_assoc]
    rw [hre, List.getLast?_append_cons, hc3c, List.getLast?_cons_cons, ← hc3c] at hlast
    exact hlast
  -- the first two segments and the separators reduce as expected
  have htk1 : (a0 :: (a2 ++ ('.' :: (b ++ ('.' :: (c3 ++ rest)))))).takeWhile
      isClassChar = a := by
    have := (takeWhile_stop isClassChar a '.' (b ++ ('.' :: (c3 ++ rest))) ha hdot).1
    rw [haa] at this ⊢
    exact this
  have hdp1 : (a0 :: (a2 ++ ('.' :: (b ++ ('.' :: (c3 ++ rest)))))).dropWhile
      isClassChar = '.' :: (b ++ ('.' :: (c3 ++ rest))) := by
    have := (takeWhile_stop isClassChar a '.' (b ++ ('.' :: (c3 ++ rest))) ha hdot).2
    rw [haa] at this
    exact this
  have htk2 : (b ++ ('.' :: (c3 ++ rest))).takeWhile isClassChar = b :=
    (takeWhile_stop isClassChar b '.' (c3 ++ rest) hb2 hdot).1
  have hdp2 : (b ++ ('.' :: (c3 ++ rest))).dropWhile isClassChar =
      '.' :: (c3 ++ rest) :=
    (takeWhile_stop isClassChar b '.' (c3 ++ rest) hb2 hdot).2
  -- the third maximal run contains the third segment as a prefix
  have htk3 : (c3 ++ rest).takeWhile isClassChar =
      c3 ++ rest.takeWhile isClassChar :=
    (takeWhile_all_append isClassChar c3 rest hc3).1
  -- the closing boundary guarantees the backtracked run is long enough
  have h3 : 20 ≤ (dropTrailingNonWord ((c3 ++ rest).takeWhile isClassChar)).length := by
    cases hw : isWordChar lc with
    | true =>
      obtain ⟨c3i, hc3i⟩ := getLast?_some_decomp c3 lc hlastc3
      have hr3 : (c3 ++ rest).takeWhile isClassChar =
          c3i ++ (lc :: rest.takeWhile isClassChar) := by
        rw [htk3, hc3i]
        simp [List.append_assoc]
      have hge := dropTrailingNonWord_ge _ c3i lc (rest.takeWhile isClassChar) hr3 hw
      have hlen : c3.length = c3i.length + 1 := by
        rw [hc3i]
        simp
      omega
    | false =>
      cases hhd : rest.head? with
      | none =>
        rw [hhd] at hend
        simp [endOk, hw] at hend
      | some e =>
        rw [hhd] at hend
        simp only [endOk, hw] at hend
        have hew : isWordChar e = true := by
          cases hx : isWordChar e
          · rw [hx] at hend; simp at hend
          · rfl
        obtain ⟨rest', hrest'⟩ : ∃ rest', rest = e :: rest' := by
          cases hk : rest with
          | nil => rw [hk] at hhd; simp at hhd
          | cons x xs =>
            rw [hk] at hhd
            simp at hhd
            exact ⟨xs, by rw [hhd]⟩
        have hr3 : (c3 ++ rest).takeWhile isClassChar =
            c3 ++ (e :: rest'.takeWhile isClassChar) := by
          rw [htk3, hrest', List.takeWhile_cons, if_pos (word_imp_class e hew)]
        have hge := dropTrailingNonWord_ge _ c3 e (rest'.takeWhile isClassChar) hr3 hew
        omega
  -- assemble: every test along matchAt succeeds
  rw [hcons, matchAt, if_pos hbnd', htk1, if_pos hla, hdp1]
  dsimp only
  rw [if_pos rfl, htk2, if_pos hlb, hdp2]
  dsimp only
  rw [if_pos rfl, if_pos h3]
  simp

/-- Declarative specification of the JWT replacement pass: at each position
either no boundary-anchored JWT match starts there and the character is
kept verbatim, or a boundary-anchored JWT-shaped span is replaced by the
literal [REDACTED_JWT] and scanning resumes after it. -/
inductive Sanitizes : Option Char → Str → Str → Prop where
  | nil (prev : Option Char) : Sanitizes prev [] []
  | keep (prev : Option Char) (c : Char) (rest out : Str) :
      ¬ HasMatch prev (c :: rest) → Sanitizes (some c) rest out →
      Sanitizes prev (c :: rest) (c :: out)
  | redact (prev : Option Char) (v : Str) (lc : Char) (rest out : Str) :
      JwtShaped v → StartBnd prev v → EndBnd v rest →
      v.getLast? = some lc → Sanitizes (some lc) rest out →
      Sanitizes prev (v ++ rest) (RedactedJWT ++ out)

theorem scanF_sanitizes : ∀ (fuel : Nat) (prev : Option Char) (s : Str),
    s.length ≤ fuel → Sanitizes prev s (scanF fuel prev s) := by
  intro fuel
  induction fuel with
  | zero =>
    intro prev s hs
    have hz : s = [] := List.length_eq_zero.mp (Nat.le_zero.mp hs)
    subst hz
    exact Sanitizes.nil prev
  | succ fuel ih =>
    intro prev s hs
    cases s with
    | nil => exact Sanitizes.nil prev
    | cons c rest =>
      cases hm : matchAt prev (c :: rest) with
      | none =>
        rw [scanF, hm]
        exact Sanitizes.keep prev c rest _
          (fun hmm => matchAt_complete prev (c :: rest) hmm hm)
          (ih (some c) rest (by simpa using Nat.le_of_succ_le_succ hs))
      | some p =>
        obtain ⟨n, lc⟩ := p
        obtain ⟨v, rest2, hl, hn, hlast, hshape, hstart, hendb⟩ :=
          matchAt_sound prev (c :: rest) n lc hm
        have hdrop : (c :: rest).drop n = rest2 := by
          rw [hl, ← hn]
          exact List.drop_left v rest2
        have hvne : v ≠ [] := by
          intro hz
          rw [hz] at hlast
          simp at hlast
        have hlenr : rest2.length ≤ fuel := by
          have h1 := congrArg List.length hl
          rw [List.length_append] at h1
          have h2 : 1 ≤ v.length := by
            cases hv : v with
            | nil => exact absurd hv hvne
            | cons x xs => simp
          simp at h1 hs
          omega
        rw [scanF, hm]
        dsimp only
        rw [hdrop, hl]
        exact Sanitizes.redact prev v lc rest2 _ hshape hstart hendb hlast
          (ih (some lc) rest2 hlenr)

theorem scanF_id_of_no_occurrence : ∀ (fuel : Nat) (s0 pre s : Str),
    s0 = pre ++ s → s.length ≤ fuel → ¬ HasJwtOccurrence s0 →
    scanF fuel pre.getLast? s = s := by
  intro fuel
  induction fuel with
  | zero => intro s0 pre s _ _ _; rfl
  | succ fuel ih =>
    intro s0 pre s hdecomp hlen hno
    cases s with
    | nil => rfl
    | cons c rest =>
      cases hm : matchAt pre.getLast? (c :: rest) with
      | some p =>
        obtain ⟨n, lc⟩ := p
        obtain ⟨v, rest2, hl, hn, hlast, hshape, hstart, hendb⟩ :=
          matchAt_sound _ _ _ _ hm
        refine absurd ⟨pre, v, rest2, ?_, hshape, hstart, hendb⟩ hno
        rw [hdecomp, hl]
        simp [List.append_assoc]
      | none =>
        rw [scanF, hm]
        have hg : (pre ++ [c]).getLast? = some c := List.getLast?_concat _
        have hrec := ih s0 (pre ++ [c]) rest
          (by rw [hdecomp]; simp)
          (by simpa using Nat.le_of_succ_le_succ hlen) hno
        rw [hg] at hrec
        rw [hrec]

/-- C4 amended: SanitizeString performs Go's ReplaceAllString of the
compiled jwtPattern, whose repetitions are anchored by ASCII word
boundaries: scanning left to right, every position either starts no
boundary-anchored JWT-shaped match and its character is preserved
byte-for-byte, or a boundary-anchored JWT-shaped span is replaced by the
literal [REDACTED_JWT] with scanning resuming after it; strings containing
no boundary-anchored JWT-shaped substring are returned unchanged.
(Unanchored occurrences — the claim's reading — need not be replaced.) -/
theorem sanitizeString_spec :
    (∀ s : Str, Sanitizes none s (SanitizeString s)) ∧
    (∀ s : Str, ¬ HasJwtOccurrence s → SanitizeString s = s) := by
  constructor
  · intro s
    exact scanF_sanitizes s.length none s (Nat.le_refl _)
  · intro s hno
    exact scanF_id_of_no_occurrence s.length s [] s rfl (Nat.le_refl _) hno

/-- C4 counterexample: three dot-separated runs of 21 hyphens form a
JWT-shaped substring in the claim's sense (each segment is at least 20
characters drawn from [A-Za-z0-9_-]), yet SanitizeString returns the
string unchanged and no [REDACTED_JWT] appears: the compiled pattern also
requires ASCII word boundaries at both ends, and a hyphen-only string has
none. -/
theorem sanitizeString_unanchored_counterexample :
    JwtShaped (str "---------------------.---------------------.---------------------") ∧
    SanitizeString
        (str "---------------------.---------------------.---------------------") =
      str "---------------------.---------------------.---------------------" ∧
    ¬ Occurs RedactedJWT
      (str "---------------------.---------------------.---------------------") := by
  refine ⟨⟨str "---------------------", str "---------------------",
    str "---------------------", by decide, by decide, by decide, by decide,
    by decide, by decide, by decide⟩, by decide, ?_⟩
  intro hocc
  have hc := (containsSub_iff _ _).mpr hocc
  revert hc
  decide

/-- Witness for sanitizeString_spec: a short string has no
boundary-anchored JWT occurrence and is returned unchanged. -/
theorem sanitizeString_spec_witness :
    SanitizeString (str "hello world") = str "hello world" := by
  refine sanitizeString_spec.2 (str "hello world") ?_
  rintro ⟨u, v, w, hs, ⟨a, b, c3, hv, _, _, _, hla, hlb, hlc⟩, _, _⟩
  have h1 := congrArg List.length hs
  have h2 := congrArg List.length hv
  have h11 : (str "hello world").length = 11 := by decide
  rw [h11] at h1
  simp [List.length_append] at h1 h2
  omega
